import Mathlib

/-!
Verification model of the pcdn content-delivery node.

This file gives a shallow embedding, in Lean 4, of the cache / resolution
core of the pcdn server:

* `CacheManager` (disk cache with LRU eviction, persistence and recovery),
* `OriginPullManager` (retrying origin-fetch client and prefetch),
* `ImageTransformManager` (option parsing and derived-key generation),
* the `/cdn/:key` route handler of `CDNServer` (the resolution pipeline),

together with theorems settling the behavioural claims about them.

Modelling conventions:

* Byte buffers are `List Nat`; only their length and identity matter.
* JavaScript `Map` objects and the NodeCache store are association lists in
  insertion order, which is the iteration order JS guarantees.
* Wall-clock time is an explicit `now : Nat` argument (milliseconds).
* NodeCache keeps, per item, an internal expiry timestamp `t`
  (`0` means unlimited); `get` treats `t ≠ 0 ∧ t < now` as expired and
  removes the item.  `set` arms `t` to `now + stdTTL·1000`.
* The SHA-256 / MD5 digests are modelled as injective tagging functions:
  no claim depends on the numeric value of a digest.
* `fs-extra` is modelled as a total key→bytes map (`disk`); `fs.remove` is
  idempotent and never fails, matching its contract.
* The JS expression `maxSize * 0.1` (the 10 % single-entry cap) is modelled
  by the exact rational comparison `10 * len > maxSize`.
* Non-termination of the eviction loop (possible only from inconsistent
  states) is reified as the error value `SetError.divergence`.
-/

namespace PCDN

/-- Byte buffers: only length and contents as data matter to the claims. -/
abbrev Bytes := List Nat

/-! ### Association-list primitives (JS Map / NodeCache object semantics) -/

/-- Lookup in an insertion-ordered association list. -/
def lookupA {β : Type} (l : List (String × β)) (k : String) : Option β :=
  match l with
  | [] => none
  | (k', v) :: rest => if k' = k then some v else lookupA rest k

/-- JS `Map.set` / object property write: update in place if the key exists
(keeping its position in iteration order), otherwise append. -/
def setA {β : Type} (l : List (String × β)) (k : String) (v : β) : List (String × β) :=
  match l with
  | [] => [(k, v)]
  | (k', v') :: rest => if k' = k then (k', v) :: rest else (k', v') :: setA rest k v

/-- JS `Map.delete` / object property delete. -/
def removeA {β : Type} (l : List (String × β)) (k : String) : List (String × β) :=
  match l with
  | [] => []
  | (k', v') :: rest => if k' = k then rest else (k', v') :: removeA rest k

/-! ### Cache entries and the CacheManager state -/

/-- CacheEntry from src/types/index.ts.  `lastModified` and `expiresAt` are
millisecond timestamps. -/
structure CacheEntry where
  key : String
  path : String
  size : Nat
  contentType : String
  etag : String
  lastModified : Nat
  expiresAt : Nat
  accessCount : Nat
  compressed : Bool
  encodings : List String
  isTransformed : Bool := false
  originalKey : Option String := none
deriving Repr, DecidableEq

/-- A NodeCache slot: the stored entry plus NodeCache's own expiry
timestamp `t` (`0` = unlimited, as in node-cache). -/
structure NCItem where
  entry : CacheEntry
  t : Nat
deriving Repr, DecidableEq

/-- The mutable state of a `CacheManager` instance, together with the cache
directory contents (`disk`, mapping file name inside the cache directory to
its bytes).  `maxSize` and `ttl` are the constructor arguments; file paths
are identified with keys, since the source always uses
`path.join(this.cacheDir, key)`. -/
structure CacheState where
  items : List (String × NCItem)
  accessLog : List (String × Nat)
  currentSize : Int
  disk : List (String × Bytes)
  maxSize : Nat
  ttl : Nat
deriving Repr, DecidableEq

/-- NodeCache expiry test: an item is expired iff `t ≠ 0 ∧ t < now`. -/
def ncExpired (now t : Nat) : Bool := t != 0 && t < now

/-- The internal expiry timestamp armed by `cache.set` under `stdTTL`. -/
def ncT (now ttl : Nat) : Nat := if ttl = 0 then 0 else now + ttl * 1000

/-- NodeCache `get`: returns the live entry, or removes an expired item and
returns nothing.  (The `expired` event handler in CacheManager re-reads the
already-deleted key and therefore has no further effect.) -/
def ncGet (now : Nat) (items : List (String × NCItem)) (k : String) :
    Option CacheEntry × List (String × NCItem) :=
  match lookupA items k with
  | none => (none, items)
  | some it =>
      if ncExpired now it.t then (none, removeA items k) else (some it.entry, items)

/-- NodeCache `set` with the default `stdTTL`. -/
def ncSet (now ttl : Nat) (items : List (String × NCItem)) (k : String)
    (e : CacheEntry) : List (String × NCItem) :=
  setA items k ⟨e, ncT now ttl⟩

/-- CacheManager.get: on a hit, bumps the access log, writes the bumped
count into the entry, and re-inserts the entry into NodeCache (which re-arms
the internal TTL).  The shutting-down guard is not modelled: we model the
running manager. -/
def cmGet (now : Nat) (s : CacheState) (k : String) :
    Option CacheEntry × CacheState :=
  let r := ncGet now s.items k
  match r.1 with
  | none => (none, { s with items := r.2 })
  | some e =>
      let cur := (lookupA s.accessLog k).getD 0
      let e2 := { e with accessCount := cur + 1 }
      (some e2, { s with
        items := ncSet now s.ttl r.2 k e2,
        accessLog := setA s.accessLog k (cur + 1) })

/-- CacheManager.delete: removes bytes, size accounting, NodeCache item and
access-log row; returns whether an entry existed.  `fs.remove` never fails
on an existing file in the pure model, so the catch branch is dead. -/
def cmDelete (now : Nat) (s : CacheState) (k : String) : Bool × CacheState :=
  let r := ncGet now s.items k
  match r.1 with
  | none => (false, { s with items := r.2 })
  | some e =>
      (true, { s with
        disk := removeA s.disk e.path,
        currentSize := s.currentSize - e.size,
        items := removeA r.2 k,
        accessLog := removeA s.accessLog k })

/-- Stable sort of the access log by count, ascending.  The source sorts
with `keys.sort((a, b) => a[1] - b[1])`; `Array.prototype.sort` is required
to be stable, modelled here as a stable insertion sort. -/
def insertByCount (x : String × Nat) : List (String × Nat) → List (String × Nat)
  | [] => [x]
  | y :: l => if x.2 ≤ y.2 then x :: y :: l else y :: insertByCount x l

/-- See insertByCount: the stable ascending sort used by evictLRU. -/
def sortByCount : List (String × Nat) → List (String × Nat)
  | [] => []
  | x :: l => insertByCount x (sortByCount l)

/-- CacheManager.evictLRU: takes the first key of the stably sorted access
log, reads it from NodeCache, and deletes it when present.  When the key is
absent from NodeCache the state is unchanged (apart from NodeCache dropping
an expired item during the read). -/
def evictLRU (now : Nat) (s : CacheState) : CacheState :=
  match sortByCount s.accessLog with
  | [] => s
  | (lruKey, _) :: _ =>
      let r := ncGet now s.items lruKey
      match r.1 with
      | none => { s with items := r.2 }
      | some _ => (cmDelete now { s with items := r.2 } lruKey).2

/-- One eviction loop of CacheManager.ensureSpace, with explicit fuel.
`none` marks the infinite loop the source would enter when an iteration
makes no progress (the loop condition and the state would then repeat
forever); the fuel is large enough that this is the only way to run out. -/
def ensureSpaceGo (now req : Nat) : Nat → CacheState → Option CacheState
  | 0, s =>
      if s.currentSize + (req : Int) > (s.maxSize : Int) ∧ s.accessLog ≠ [] then none
      else some s
  | fuel + 1, s =>
      if s.currentSize + (req : Int) > (s.maxSize : Int) ∧ s.accessLog ≠ [] then
        let s2 := evictLRU now s
        if s2 = s then none else ensureSpaceGo now req fuel s2
      else some s

/-- CacheManager.ensureSpace: evict until the new bytes fit or nothing is
left to evict.  Each productive iteration removes at least one access-log
row or NodeCache item, so the chosen fuel is sufficient. -/
def ensureSpace (now req : Nat) (s : CacheState) : Option CacheState :=
  ensureSpaceGo now req (s.items.length + s.accessLog.length + 1) s

/-- Failure modes of CacheManager.set.  `divergence` stands for the
non-terminating eviction loop, reachable only from inconsistent states. -/
inductive SetError where
  | oversized
  | divergence
deriving Repr, DecidableEq

/-- Rendering of a byte list as a digest body (kernel-reducible). -/
def bytesTag : Bytes → String
  | [] => ""
  | b :: rest => toString b ++ "." ++ bytesTag rest

/-- MD5 content digest, modelled as an injective tag. -/
def etagOf (data : Bytes) : String := "md5-" ++ bytesTag data

/-- CacheManager.set: rejects entries above 10 % of capacity, evicts to make
room, writes the bytes, then installs metadata, size accounting and a fresh
access-log row.  `expiresAt` uses `stdTTL || 86400`. -/
def cmSet (now : Nat) (s : CacheState) (k : String) (data : Bytes)
    (contentType : String) (encodings : List String) :
    Except SetError (CacheEntry × CacheState) :=
  if 10 * data.length > s.maxSize then .error .oversized
  else
    match ensureSpace now data.length s with
    | none => .error .divergence
    | some s1 =>
        let s2 := { s1 with disk := setA s1.disk k data }
        let e : CacheEntry := {
          key := k
          path := k
          size := data.length
          contentType := contentType
          etag := etagOf data
          lastModified := now
          expiresAt := now + (if s.ttl = 0 then 86400 else s.ttl) * 1000
          accessCount := 0
          compressed := encodings.contains "gzip" || encodings.contains "br"
          encodings := encodings }
        .ok (e, { s2 with
          items := ncSet now s.ttl s2.items k e,
          currentSize := s2.currentSize + data.length,
          accessLog := setA s2.accessLog k 0 })

/-- One iteration of the deletion loops in purge and invalidatePattern:
delete the key and count a success. -/
def deleteStep (now : Nat) (acc : Nat × CacheState) (k : String) : Nat × CacheState :=
  let r := cmDelete now acc.2 k
  (acc.1 + (if r.1 then 1 else 0), r.2)

/-- CacheManager.purge: snapshot the keys, delete each, count successes.
(The metadata file removal is part of the persistence model below.) -/
def cmPurge (now : Nat) (s : CacheState) : Nat × CacheState :=
  (s.items.map Prod.fst).foldl (deleteStep now) (0, s)

/-- The loop body of invalidatePattern: delete the key iff it matches. -/
def invalidateStep (now : Nat) (test : String → Bool) (acc : Nat × CacheState)
    (k : String) : Nat × CacheState :=
  if test k then deleteStep now acc k else acc

/-- CacheManager.invalidatePattern.  The compiled result of
`new RegExp(pattern)` is passed in as `rx : Option (String → Bool)`:
`none` when the pattern does not compile (the method then throws with the
state untouched), `some test` otherwise, where `test` is the `RegExp.test`
predicate of the compiled pattern.  `RegExp.test` searches for a match
anywhere in the string. -/
def cmInvalidate (now : Nat) (s : CacheState) (rx : Option (String → Bool)) :
    Except Unit Nat × CacheState :=
  match rx with
  | none => (.error (), s)
  | some test =>
      let r := (s.items.map Prod.fst).foldl (invalidateStep now test) (0, s)
      (.ok r.1, r.2)

/-- The `test` predicate of a compiled JavaScript regular expression whose
pattern contains no metacharacters: such a pattern always compiles, and
`test` succeeds iff the pattern occurs anywhere in the string (search
semantics, with no implicit anchors). -/
def charsInfixOf (p : List Char) : List Char → Bool
  | [] => p.isEmpty
  | c :: rest => p.isPrefixOf (c :: rest) || charsInfixOf p rest

/-- RegExp.test for a metacharacter-free (literal) pattern. -/
def jsRegexTestLit (pattern s : String) : Bool :=
  charsInfixOf pattern.data s.data

/-- Full-regular-expression match of a literal pattern against a whole
string (what an anchored `^pattern$` would accept): plain equality.  This
is the semantics the claim asserts, to be compared with `jsRegexTestLit`. -/
def fullMatchLit (pattern s : String) : Bool := pattern = s

/-- CacheManager.getStats. -/
structure CacheStats where
  size : Nat
  entries : Nat
  currentSize : Int
  persisted : Bool
deriving Repr, DecidableEq

/-- CacheManager.getStats: capacity, NodeCache key count, byte accounting. -/
def getStats (s : CacheState) : CacheStats :=
  { size := s.maxSize
    entries := s.items.length
    currentSize := s.currentSize
    persisted := true }

/-! ### Persistence and recovery -/

/-- The durable index file: entry list plus raw access-count table.
The constant version tag and timestamp are omitted. -/
structure CacheMetadata where
  entries : List CacheEntry
  accessLog : List (String × Nat)
deriving Repr, DecidableEq

/-- One iteration of saveMetadata's collection loop: read the key back
through NodeCache and keep the entry when live. -/
def saveStep (now : Nat) (acc : List CacheEntry × List (String × NCItem))
    (k : String) : List CacheEntry × List (String × NCItem) :=
  let g := ncGet now acc.2 k
  match g.1 with
  | some e => (acc.1 ++ [e], g.2)
  | none => (acc.1, g.2)

/-- CacheManager.saveMetadata: snapshot the keys and read each back through
NodeCache (dropping items NodeCache now considers expired), producing the
persisted entry list alongside the possibly-swept state. -/
def saveMetadata (now : Nat) (s : CacheState) : CacheMetadata × CacheState :=
  let r := (s.items.map Prod.fst).foldl (saveStep now) ([], s.items)
  ({ entries := r.1, accessLog := s.accessLog }, { s with items := r.2 })

/-- One step of recovery: verify a recorded entry against the directory.
A missing backing file drops the entry; a size mismatch or an already
passed `expiresAt` deletes the file and drops the entry; otherwise the
entry is re-registered and its size re-accounted. -/
def restoreEntry (now : Nat) (acc : CacheState) (e : CacheEntry) : CacheState :=
  match lookupA acc.disk e.path with
  | none => acc
  | some bytes =>
      if bytes.length = e.size then
        if e.expiresAt > now then
          { acc with
            items := ncSet now acc.ttl acc.items e.key e,
            currentSize := acc.currentSize + e.size }
        else { acc with disk := removeA acc.disk e.path }
      else { acc with disk := removeA acc.disk e.path }

/-- CacheManager.loadPersistedCache, metadata-present branch: restore the
access log, then verify and restore each recorded entry in order. -/
def loadPersistedCache (now : Nat) (m : CacheMetadata) (disk : List (String × Bytes))
    (maxSize ttl : Nat) : CacheState :=
  m.entries.foldl (restoreEntry now)
    { items := []
      accessLog := m.accessLog
      currentSize := 0
      disk := disk
      maxSize := maxSize
      ttl := ttl }

/-- CacheManager.loadExistingCache, the degraded cold-recovery mode used
when no (valid) index file exists: sum the sizes of the files in the cache
directory into `currentSize`, registering no entries and no access-log
rows.  The metadata file itself is skipped. -/
def loadExistingCache (disk : List (String × Bytes)) (maxSize ttl : Nat) : CacheState :=
  { items := []
    accessLog := []
    currentSize :=
      ((disk.filter (fun f => f.1 ≠ ".cache-metadata.json")).map
        (fun f => (f.2.length : Int))).sum
    disk := disk
    maxSize := maxSize
    ttl := ttl }

/-- The empty state of a freshly constructed CacheManager over an empty
cache directory. -/
def emptyCache (maxSize ttl : Nat) : CacheState :=
  { items := [], accessLog := [], currentSize := 0, disk := [],
    maxSize := maxSize, ttl := ttl }

/-! ### Path and key helpers -/

/-- Lower-casing of ASCII strings, by character map (the kernel-reducible
equivalent of String.toLowerCase for the strings in play). -/
def toLowerStr (s : String) : String := String.mk (s.data.map Char.toLower)

/-- SHA-256 hex digest of a URL (CacheManager.generateKey), modelled as an
injective tag: the claims depend only on the digest being a deterministic
function of the path that is distinct from other key shapes. -/
def generateKey (url : String) : String := "sha256(" ++ url ++ ")"

/-- Basename of a path: the segment after the last slash. -/
def basenameOf (p : String) : String :=
  String.mk (p.data.foldl (fun acc c => if c = '/' then [] else acc ++ [c]) [])

/-- The suffix starting at the last dot of a character list, if any. -/
def lastDotSuffix : List Char → Option (List Char)
  | [] => none
  | c :: rest =>
      match lastDotSuffix rest with
      | some s => some s
      | none => if c = '.' then some ('.' :: rest) else none

/-- Node's path.extname: the extension of the basename, including the dot;
a dot in the first position of the basename (a dotfile) does not count. -/
def extname (p : String) : String :=
  match (basenameOf p).data with
  | [] => ""
  | _ :: rest =>
      match lastDotSuffix rest with
      | some s => String.mk s
      | none => ""

/-- A representative fragment of the external mime-types lookup table,
covering the extensions exercised by the development. -/
def mimeLookup (p : String) : Option String :=
  match toLowerStr (extname p) with
  | ".png" => some "image/png"
  | ".jpg" => some "image/jpeg"
  | ".jpeg" => some "image/jpeg"
  | ".gif" => some "image/gif"
  | ".webp" => some "image/webp"
  | ".svg" => some "image/svg+xml"
  | ".txt" => some "text/plain"
  | ".html" => some "text/html"
  | ".json" => some "application/json"
  | _ => none

/-! ### Origin pull (OriginPullManager) -/

/-- OriginConfig after the constructor spread the defaults; an explicitly
configured `0` survives the spread and only falls back at use sites through
the JS `||` operator. -/
structure OriginConfig where
  enabled : Bool
  url : String
  timeout : Nat := 30000
  retryAttempts : Nat := 3
  cacheOnPull : Bool := true
  followRedirects : Bool := true
  maxRedirectDepth : Nat := 5
  allowedExtensions : Option (List String) := none
  deniedExtensions : Option (List String) := none

/-- Effective retry bound at the use site: `this.config.retryAttempts || 3`
(a configured 0 is falsy and falls back to 3). -/
def effRetry (cfg : OriginConfig) : Nat :=
  if cfg.retryAttempts = 0 then 3 else cfg.retryAttempts

/-- Effective redirect-depth bound: `this.config.maxRedirectDepth || 5`. -/
def effDepth (cfg : OriginConfig) : Nat :=
  if cfg.maxRedirectDepth = 0 then 5 else cfg.maxRedirectDepth

/-- One terminal HTTP answer of the origin for one attempt (axios follows
redirects internally, so this is the post-redirect status). -/
structure OriginResp where
  status : Nat
  body : Bytes
  contentTypeHeader : Option String
deriving Repr, DecidableEq

/-- The failures OriginPullManager.fetchFromOrigin can throw. -/
inductive FetchErr where
  | redirectLimitExceeded
  | notFound
  | originStatus (status : Nat)
deriving Repr, DecidableEq

deriving instance DecidableEq for Except

/-- The observable trace of fetchFromOrigin: how many GET requests were
issued, which backoff sleeps happened between them, and the outcome. -/
structure FetchTrace where
  attempts : Nat
  sleeps : List Nat
  result : Except FetchErr OriginResp
deriving Repr, DecidableEq

/-- OriginPullManager.fetchFromOrigin.  `c` is the `redirectCount`
parameter, which the source also uses as the retry counter: entering with
`c > maxRedirectDepth || 5` throws the redirect-limit error; a 200 returns;
a 404 throws immediately; any other status ≥ 500 sleeps
`1000 · (c + 1)` ms and recurses with `c + 1` while `c < retryAttempts || 3`;
everything else throws the status error.  `origin url n` is the answer the
origin gives to the `n`-th GET (0-based) of `url`.  The fuel is structural
and never runs out when started with `effRetry cfg + 1`, since recursion
requires `c < effRetry`. -/
def fetchGo (cfg : OriginConfig) (origin : String → Nat → OriginResp) (url : String) :
    Nat → Nat → Nat → List Nat → FetchTrace
  | 0, _, attempts, sleeps =>
      -- unreachable under the initial fuel; mapped to the redirect-limit throw
      ⟨attempts, sleeps, .error .redirectLimitExceeded⟩
  | fuel + 1, c, attempts, sleeps =>
      if c > effDepth cfg then ⟨attempts, sleeps, .error .redirectLimitExceeded⟩
      else
        let resp := origin url attempts
        if resp.status = 200 then ⟨attempts + 1, sleeps, .ok resp⟩
        else if resp.status = 404 then ⟨attempts + 1, sleeps, .error .notFound⟩
        else if 500 ≤ resp.status ∧ c < effRetry cfg then
          fetchGo cfg origin url fuel (c + 1) (attempts + 1) (sleeps ++ [1000 * (c + 1)])
        else ⟨attempts + 1, sleeps, .error (.originStatus resp.status)⟩

/-- fetchFromOrigin entered from pullFromOrigin (redirectCount = 0). -/
def fetchFromOrigin (cfg : OriginConfig) (origin : String → Nat → OriginResp)
    (url : String) : FetchTrace :=
  fetchGo cfg origin url (effRetry cfg + 1) 0 0 []

/-- OriginPullResult (src/types/index.ts). -/
structure OriginPullResult where
  success : Bool
  key : String
  url : String
  cdnUrl : String
  size : Nat
  contentType : String
  cached : Bool
  originUrl : String
deriving Repr, DecidableEq

/-- The failures OriginPullManager.pullFromOrigin can throw. -/
inductive PullErr where
  | extensionDenied (ext : String)
  | extensionNotAllowed (ext : String)
  | fetch (e : FetchErr)
  | cacheSet (e : SetError)
deriving Repr, DecidableEq

/-- buildOriginUrl: strip one leading slash from the path and one trailing
slash from the configured origin, then join with a slash. -/
def buildOriginUrl (cfg : OriginConfig) (requestPath : String) : String :=
  let cleanPath :=
    match requestPath.data with
    | '/' :: rest => String.mk rest
    | _ => requestPath
  let baseOrigin :=
    if cfg.url.data.getLast? = some '/' then String.mk cfg.url.data.dropLast else cfg.url
  baseOrigin ++ "/" ++ cleanPath

/-- OriginPullManager.pullFromOrigin: disabled config short-circuits to an
unsuccessful result; the deny-list is checked before the allow-list; then
the origin is fetched and, when `cacheOnPull` is set, the bytes are stored
under the SHA-256 key of the request path.  (`!response.data` in the source
can only fire when axios delivers no buffer at all — an empty buffer is a
truthy object — so it has no counterpart here.) -/
def pullFromOrigin (cfg : OriginConfig) (origin : String → Nat → OriginResp) (now : Nat)
    (s : CacheState) (requestPath : String) (baseUrl : String) :
    Except PullErr (OriginPullResult × CacheState) :=
  if !cfg.enabled then
    .ok ({ success := false, key := "", url := "", cdnUrl := "", size := 0,
           contentType := "", cached := false, originUrl := "" }, s)
  else
    let ext := toLowerStr (extname requestPath)
    if (cfg.deniedExtensions.getD []).contains ext then
      .error (.extensionDenied ext)
    else if (match cfg.allowedExtensions with
             | some allowed => !allowed.contains ext
             | none => false) then
      .error (.extensionNotAllowed ext)
    else
      let originUrl := buildOriginUrl cfg requestPath
      let key := generateKey requestPath
      let tr := fetchFromOrigin cfg origin originUrl
      match tr.result with
      | .error e => .error (.fetch e)
      | .ok resp =>
          let contentType :=
            resp.contentTypeHeader.getD ((mimeLookup requestPath).getD "application/octet-stream")
          if cfg.cacheOnPull then
            match cmSet now s key resp.body contentType [] with
            | .error e => .error (.cacheSet e)
            | .ok r =>
                .ok ({ success := true, key := key, url := "/cdn/" ++ key,
                       cdnUrl := baseUrl ++ "/cdn/" ++ key, size := resp.body.length,
                       contentType := contentType, cached := true,
                       originUrl := originUrl }, r.2)
          else
            .ok ({ success := true, key := key, url := "/cdn/" ++ key,
                   cdnUrl := baseUrl ++ "/cdn/" ++ key, size := resp.body.length,
                   contentType := contentType, cached := false,
                   originUrl := originUrl }, s)

/-- OriginPullManager.prefetch: pull each URL in order, appending the result
of every pull that did not throw; a throwing pull is logged and skipped
(its result is not appended).  A throwing pull leaves the store unchanged,
because every throw in pullFromOrigin happens before any store mutation. -/
def prefetch (cfg : OriginConfig) (origin : String → Nat → OriginResp) (now : Nat)
    (s : CacheState) (urls : List String) (baseUrl : String) :
    List OriginPullResult × CacheState :=
  match urls with
  | [] => ([], s)
  | u :: rest =>
      match pullFromOrigin cfg origin now s u baseUrl with
      | .ok r =>
          let p := prefetch cfg origin now r.2 rest baseUrl
          (r.1 :: p.1, p.2)
      | .error _ => prefetch cfg origin now s rest baseUrl

/-- Reference list of per-URL outcomes: the outcome of pulling each input
URL in order, threading the store state exactly as prefetch does.  Used to
state what prefetch keeps and what it drops. -/
def pullOutcomes (cfg : OriginConfig) (origin : String → Nat → OriginResp) (now : Nat)
    (s : CacheState) (urls : List String) (baseUrl : String) :
    List (Except PullErr OriginPullResult) :=
  match urls with
  | [] => []
  | u :: rest =>
      match pullFromOrigin cfg origin now s u baseUrl with
      | .ok r => .ok r.1 :: pullOutcomes cfg origin now r.2 rest baseUrl
      | .error e => .error e :: pullOutcomes cfg origin now s rest baseUrl

/-! ### Image transform manager -/

/-- ImageTransformConfig after the constructor spread the defaults. -/
structure ImageTransformConfig where
  enabled : Bool
  maxWidth : Nat := 4000
  maxHeight : Nat := 4000
  quality : Nat := 85
  allowedFormats : List String := ["jpeg", "png", "webp", "avif", "gif"]
  defaultFormat : String := "jpeg"
  cacheTransformed : Bool := true

/-- ImageTransformOptions (src/types/index.ts); absent fields are `none`. -/
structure ImageTransformOptions where
  width : Option Nat := none
  height : Option Nat := none
  quality : Option Nat := none
  format : Option String := none
  fit : Option String := none
  position : Option String := none
deriving Repr, DecidableEq

/-- The transform-related query parameters of a `/cdn/:key` request;
`none` stands for an absent parameter. -/
structure TQuery where
  w : Option String := none
  width : Option String := none
  h : Option String := none
  height : Option String := none
  q : Option String := none
  quality : Option String := none
  f : Option String := none
  format : Option String := none
  fit : Option String := none
  pos : Option String := none
  position : Option String := none
deriving Repr, DecidableEq

/-- JS truthiness of a string value: the empty string is falsy. -/
def truthyS (a : Option String) : Option String :=
  match a with
  | some s => if s = "" then none else some s
  | none => none

/-- The JS expression `a || b` on string parameters, as used in the guards
`if (query.w || query.width)`: the first truthy value, if any. -/
def jsOrS (a b : Option String) : Option String :=
  match truthyS a with
  | some s => some s
  | none => truthyS b

/-- JS `parseInt(s, 10)`: skip leading whitespace, read an optional sign
and the longest digit prefix; `none` is NaN. -/
def parseIntJS (s : String) : Option Int :=
  let cs := s.data.dropWhile (fun c => c = ' ' ∨ c = '\t' ∨ c = '\n' ∨ c = '\r')
  let signed : Int × List Char :=
    match cs with
    | '-' :: r => (-1, r)
    | '+' :: r => (1, r)
    | _ => (1, cs)
  let digits := signed.2.takeWhile Char.isDigit
  if digits.isEmpty then none
  else some (signed.1 * ((digits.foldl (fun a c => a * 10 + (c.toNat - 48)) 0 : Nat) : Int))

/-- ImageTransformManager.parseTransformOptions: each field is validated
independently (invalid or out-of-range values are dropped); the result is
`none` exactly when the manager is disabled or no valid field survived. -/
def parseTransformOptions (cfg : ImageTransformConfig) (q : TQuery) :
    Option ImageTransformOptions :=
  if !cfg.enabled then none
  else
    let widthOpt : Option Nat :=
      match jsOrS q.w q.width with
      | some str =>
          match parseIntJS str with
          | some n =>
              if 0 < n then
                some (min n.toNat (if cfg.maxWidth = 0 then 4000 else cfg.maxWidth))
              else none
          | none => none
      | none => none
    let heightOpt : Option Nat :=
      match jsOrS q.h q.height with
      | some str =>
          match parseIntJS str with
          | some n =>
              if 0 < n then
                some (min n.toNat (if cfg.maxHeight = 0 then 4000 else cfg.maxHeight))
              else none
          | none => none
      | none => none
    let qualityOpt : Option Nat :=
      match jsOrS q.q q.quality with
      | some str =>
          match parseIntJS str with
          | some n => if 1 ≤ n ∧ n ≤ 100 then some n.toNat else none
          | none => none
      | none => none
    let formatOpt : Option String :=
      match jsOrS q.f q.format with
      | some str =>
          let fmt := toLowerStr str
          if cfg.allowedFormats.contains fmt then some fmt else none
      | none => none
    let fitOpt : Option String :=
      match truthyS q.fit with
      | some s =>
          if ["cover", "contain", "fill", "inside", "outside"].contains s then some s
          else none
      | none => none
    let posOpt : Option String :=
      match jsOrS q.pos q.position with
      | some s =>
          if ["top", "right", "bottom", "left", "center", "centre"].contains s then some s
          else none
      | none => none
    if widthOpt.isSome || heightOpt.isSome || qualityOpt.isSome ||
        formatOpt.isSome || fitOpt.isSome || posOpt.isSome then
      some { width := widthOpt, height := heightOpt, quality := qualityOpt,
             format := formatOpt, fit := fitOpt, position := posOpt }
    else none

/-- JS truthiness of an optional numeric option (`if (options.width)`). -/
def truthyN (o : Option Nat) : Option Nat :=
  match o with
  | some 0 => none
  | x => x

/-- Array.prototype.join with a separator (kernel-reducible). -/
def joinSep (sep : String) : List String → String
  | [] => ""
  | [x] => x
  | x :: xs => x ++ sep ++ joinSep sep xs

/-- ImageTransformManager.generateTransformKey: append one canonical token
per present option, joined by underscores; no options gives the key back. -/
def generateTransformKey (originalKey : String) (o : ImageTransformOptions) : String :=
  let params : List String :=
    (match truthyN o.width with | some w => ["w" ++ toString w] | none => []) ++
    (match truthyN o.height with | some h => ["h" ++ toString h] | none => []) ++
    (match truthyN o.quality with | some qv => ["q" ++ toString qv] | none => []) ++
    (match truthyS o.format with | some fv => ["f" ++ fv] | none => []) ++
    (match truthyS o.fit with | some fv => ["fit" ++ fv] | none => []) ++
    (match truthyS o.position with | some p => ["pos" ++ p] | none => [])
  if params = [] then originalKey
  else originalKey ++ "_" ++ joinSep "_" params

/-- ImageTransformManager.isImageFile: extension membership after
lower-casing and stripping the dot. -/
def isImageFile (filename : String) : Bool :=
  let e := toLowerStr (extname filename)
  let e2 :=
    match e.data with
    | '.' :: rest => String.mk rest
    | _ => e
  ["jpg", "jpeg", "png", "webp", "avif", "gif", "bmp", "tiff", "svg"].contains e2

/-- TransformedImageResult (src/types/index.ts). -/
structure TransformedImageResult where
  buffer : Bytes
  contentType : String
  width : Nat
  height : Nat
  size : Nat
deriving Repr, DecidableEq

/-! ### The /cdn/:key route handler (resolution pipeline) -/

/-- The collaborators of the route handler.  `transformFn` stands for
ImageTransformManager.transform, whose behaviour is that of the external
sharp codec: it is kept as a parameter, with `Except` for a decode or
transform failure.  `origin url n` is the origin's answer to the n-th GET
of `url`. -/
structure CDNCtx where
  redisEnabled : Bool
  itConfig : ImageTransformConfig
  originCfg : OriginConfig
  origin : String → Nat → OriginResp
  transformFn : Bytes → ImageTransformOptions → Except Unit TransformedImageResult
  baseUrl : String

/-- Store state visible to the route handler: the local CacheManager plus
the remote (Redis) tier's entry map when that tier is enabled. -/
structure ServerState where
  cache : CacheState
  redis : List (String × CacheEntry)
deriving Repr, DecidableEq

/-- The request-level outcome of the handler.  `served` carries the
X-Cache header value, the Content-Type, the body bytes and the ETag;
`notFound` is the 404 thrown at the end; `serverError` is the express
error middleware's 500 for an exception outside the origin try-block. -/
inductive CDNResponse where
  | served (xcache : String) (contentType : String) (body : Bytes) (etag : String)
  | notFound
  | serverError
deriving Repr, DecidableEq

/-- Rewrite the entry stored under a key in place, keeping the NodeCache
expiry: this is the effect of mutating the object returned by `set`
(`transformedEntry.isTransformed = true`), which NodeCache shares because
`useClones` is false. -/
def mutateEntry (items : List (String × NCItem)) (k : String)
    (f : CacheEntry → CacheEntry) : List (String × NCItem) :=
  items.map (fun p => if p.1 = k then (p.1, ⟨f p.2.entry, p.2.t⟩) else p)

/-- The GET /cdn/:key handler of CDNServer.  Returns the response, the
resulting store state, and how many times the Transform Engine ran.
Failures inside the origin-pull try-block are caught and fall through to
the 404; failures in the cache-hit transform branch propagate to the error
middleware. -/
def cdnHandler (ctx : CDNCtx) (now : Nat) (st : ServerState) (key : String)
    (query : TQuery) : CDNResponse × ServerState × Nat :=
  let topts := parseTransformOptions ctx.itConfig query
  let derived :=
    match topts with
    | some o => if isImageFile key then (generateTransformKey key o, true) else (key, false)
    | none => (key, false)
  let cacheKey := derived.1
  let isT := derived.2
  let redisHit := if ctx.redisEnabled then lookupA st.redis cacheKey else none
  let looked :=
    match redisHit with
    | some e => (some e, st.cache)
    | none => cmGet now st.cache cacheKey
  let cacheSt1 := looked.2
  match looked.1 with
  | some cached =>
      if isT ∧ cached.isTransformed = false then
        -- cache hit that still needs transforming: read the bytes stored
        -- under the derived key, transform, write back, mirror, serve
        match lookupA cacheSt1.disk cached.path with
        | none => (.serverError, { st with cache := cacheSt1 }, 0)
        | some buf =>
            match ctx.transformFn buf (topts.getD {}) with
            | .error _ => (.serverError, { st with cache := cacheSt1 }, 1)
            | .ok tr =>
                match cmSet now cacheSt1 cacheKey tr.buffer tr.contentType [] with
                | .error _ => (.serverError, { st with cache := cacheSt1 }, 1)
                | .ok r =>
                    let flag := fun (e : CacheEntry) =>
                      { e with isTransformed := true, originalKey := some key }
                    let e1 := flag r.1
                    let items2 := mutateEntry r.2.items cacheKey flag
                    let cacheSt3 := { r.2 with items := items2 }
                    let redis2 :=
                      if ctx.redisEnabled then setA st.redis cacheKey e1 else st.redis
                    (.served "TRANSFORMED" tr.contentType tr.buffer e1.etag,
                     ⟨cacheSt3, redis2⟩, 1)
      else
        -- serve the cached entry as is
        match lookupA cacheSt1.disk cached.path with
        | none => (.serverError, { st with cache := cacheSt1 }, 0)
        | some body =>
            (.served (if isT then "TRANSFORMED_HIT" else "HIT") cached.contentType
              body cached.etag, { st with cache := cacheSt1 }, 0)
  | none =>
      if ctx.originCfg.enabled then
        match pullFromOrigin ctx.originCfg ctx.origin now cacheSt1 key ctx.baseUrl with
        | .error _ => (.notFound, { st with cache := cacheSt1 }, 0)
        | .ok pr =>
            if pr.1.success then
              let got := cmGet now pr.2 pr.1.key
              match got.1 with
              | some originalEntry =>
                  match topts with
                  | some o =>
                      if isT then
                        match lookupA got.2.disk originalEntry.path with
                        | none => (.notFound, { st with cache := got.2 }, 0)
                        | some buf =>
                            match ctx.transformFn buf o with
                            | .error _ => (.notFound, { st with cache := got.2 }, 1)
                            | .ok tr =>
                                match cmSet now got.2 cacheKey tr.buffer tr.contentType [] with
                                | .error _ => (.notFound, { st with cache := got.2 }, 1)
                                | .ok r =>
                                    let flag := fun (e : CacheEntry) =>
                                      { e with isTransformed := true, originalKey := some key }
                                    let e1 := flag r.1
                                    let items2 := mutateEntry r.2.items cacheKey flag
                                    let cacheSt4 := { r.2 with items := items2 }
                                    let redis2 :=
                                      if ctx.redisEnabled then setA st.redis cacheKey e1
                                      else st.redis
                                    (.served "TRANSFORMED" tr.contentType tr.buffer e1.etag,
                                     ⟨cacheSt4, redis2⟩, 1)
                      else
                        match lookupA got.2.disk originalEntry.path with
                        | none => (.serverError, { st with cache := got.2 }, 0)
                        | some body =>
                            (.served "MISS" originalEntry.contentType body originalEntry.etag,
                             { st with cache := got.2 }, 0)
                  | none =>
                      match lookupA got.2.disk originalEntry.path with
                      | none => (.serverError, { st with cache := got.2 }, 0)
                      | some body =>
                          (.served "MISS" originalEntry.contentType body originalEntry.etag,
                           { st with cache := got.2 }, 0)
              | none => (.notFound, { st with cache := got.2 }, 0)
            else (.notFound, { st with cache := pr.2 }, 0)
      else (.notFound, { st with cache := cacheSt1 }, 0)

end PCDN

namespace PCDN

/-! ### Fixtures used by concrete instances -/

/-- An enabled origin client with all defaults (retryAttempts 3,
maxRedirectDepth 5). -/
def cfgDefault : OriginConfig := { enabled := true, url := "http://origin" }

/-- An enabled origin client configured with more retries (7) than the
default redirect depth (5). -/
def cfgRetry7 : OriginConfig :=
  { enabled := true, url := "http://origin", retryAttempts := 7 }

/-- An origin that answers 503 to every request. -/
def origin503 : String → Nat → OriginResp := fun _ _ => ⟨503, [], none⟩

/-- An origin that answers 404 to every request. -/
def origin404 : String → Nat → OriginResp := fun _ _ => ⟨404, [], none⟩

/-! ### C1 — capacity after cold recovery -/

/-- C1: the capacity invariant is violated by the code.  From the degraded
cold-recovery state (no index file; `loadExistingCache` recomputed
`currentSize = 95` by scanning a directory holding one orphaned 95-byte
file, registering nothing in the access log), a 10-byte put into a
100-byte-capacity store passes the 10 % size check, finds nothing to evict
(the access log is empty, so `ensureSpace` exits immediately), succeeds,
and leaves `stats().currentSize = 105`, exceeding the capacity 100 instead
of failing. -/
theorem c1_cold_recovery_put_exceeds_capacity :
    ((cmSet 0 (loadExistingCache [("orphan", List.replicate 95 0)] 100 60) "k"
        (List.replicate 10 1) "text/plain" []).map
      (fun r => ((getStats r.2).currentSize, (getStats r.2).size))) = .ok (105, 100) ∧
    (100 : Int) < 105 := by
  constructor
  · decide
  · decide

/-! ### C3 — origin retry bound -/

/-- Trace of fetchFromOrigin against an origin that always answers with the
same 5xx status, for any entry counter `c ≤ effRetry`: the remaining
attempts number `effRetry - c + 1`, with sleeps `1000·i` for
`i = c+1, …, effRetry` between them, ending in the status error. -/
theorem fetchGo_always5xx (cfg : OriginConfig) (origin : String → Nat → OriginResp)
    (url : String) (s0 : Nat) (hs : 500 ≤ s0) (h5 : ∀ n, (origin url n).status = s0)
    (hrd : effRetry cfg ≤ effDepth cfg) :
    ∀ fuel c attempts sleeps, c ≤ effRetry cfg → effRetry cfg - c < fuel →
      fetchGo cfg origin url fuel c attempts sleeps =
        ⟨attempts + (effRetry cfg - c) + 1,
         sleeps ++ (List.range' (c + 1) (effRetry cfg - c)).map (fun i => 1000 * i),
         .error (.originStatus s0)⟩ := by
  intro fuel
  induction fuel with
  | zero => intro c attempts sleeps hc hf; omega
  | succ fuel ih =>
      intro c attempts sleeps hc hf
      have hcd : ¬ c > effDepth cfg := by omega
      have h200 : ¬ (origin url attempts).status = 200 := by rw [h5]; omega
      have h404 : ¬ (origin url attempts).status = 404 := by rw [h5]; omega
      rw [fetchGo]
      simp only [hcd, if_false, h200, if_false, h404, if_false]
      by_cases hlt : c < effRetry cfg
      · have hcond : 500 ≤ (origin url attempts).status ∧ c < effRetry cfg := by
          rw [h5]; exact ⟨hs, hlt⟩
        rw [if_pos hcond]
        rw [ih (c + 1) (attempts + 1) (sleeps ++ [1000 * (c + 1)]) (by omega) (by omega)]
        have harith : attempts + 1 + (effRetry cfg - (c + 1)) + 1 =
            attempts + (effRetry cfg - c) + 1 := by omega
        have hrange : effRetry cfg - c = (effRetry cfg - (c + 1)) + 1 := by omega
        rw [harith, hrange, List.range'_succ]
        simp [List.append_assoc]
      · have hcond : ¬ (500 ≤ (origin url attempts).status ∧ c < effRetry cfg) := by
          intro h; exact hlt h.2
        rw [if_neg hcond]
        have hc0 : effRetry cfg - c = 0 := by omega
        rw [h5, hc0]
        simp [List.range']

/-- C3 (amended): for every configuration whose effective retry count
(`retryAttempts || 3`) does not exceed the effective redirect depth
(`maxRedirectDepth || 5`), a fetch against a source that always answers
with one fixed 5xx status makes exactly `effRetry + 1` attempts with
backoffs 1000 ms, 2000 ms, …, `effRetry · 1000` ms between them and then
fails with the origin-status error (OriginFetchFailed); a fetch against a
404 source makes exactly one attempt and fails immediately with the
not-found error, never retried. -/
theorem c3_retry_bound_amended (cfg : OriginConfig) (origin : String → Nat → OriginResp)
    (url5 url4 : String) (s0 : Nat) (hs : 500 ≤ s0)
    (h5 : ∀ n, (origin url5 n).status = s0) (h4 : (origin url4 0).status = 404)
    (hrd : effRetry cfg ≤ effDepth cfg) :
    fetchFromOrigin cfg origin url5 =
      ⟨effRetry cfg + 1, (List.range' 1 (effRetry cfg)).map (fun i => 1000 * i),
       .error (.originStatus s0)⟩ ∧
    fetchFromOrigin cfg origin url4 = ⟨1, [], .error .notFound⟩ := by
  constructor
  · have h := fetchGo_always5xx cfg origin url5 s0 hs h5 hrd
      (effRetry cfg + 1) 0 0 [] (by omega) (by omega)
    rw [fetchFromOrigin, h]
    simp
  · rw [fetchFromOrigin, fetchGo]
    have hd : ¬ (0 > effDepth cfg) := by omega
    simp only [hd, if_false, h4]
    norm_num

/-- An origin that answers 503 on one URL and 404 on every other. -/
def originMix : String → Nat → OriginResp := fun u _ =>
  if u = "http://origin/five.png" then ⟨503, [], none⟩ else ⟨404, [], none⟩

/-- Witness for c3_retry_bound_amended: the default configuration
(retryAttempts 3, maxRedirectDepth 5) against an origin that 503s one URL
and 404s another. -/
theorem c3_retry_bound_witness :
    fetchFromOrigin cfgDefault originMix "http://origin/five.png" =
      ⟨4, [1000, 2000, 3000], .error (.originStatus 503)⟩ ∧
    fetchFromOrigin cfgDefault originMix "http://origin/four.png" = ⟨1, [], .error .notFound⟩ := by
  have h := c3_retry_bound_amended cfgDefault originMix
    "http://origin/five.png" "http://origin/four.png" 503 (by omega)
    (fun n => rfl) rfl (by decide)
  exact ⟨h.1.trans (by decide), h.2⟩

/-- Counterexample to C3 as stated: with configured retryAttempts = 7
(legal, since the claim quantifies over every configured retryAttempts)
and the default maxRedirectDepth 5, an always-503 pull makes 6 attempts —
not 7 + 1 = 8 — and fails with the redirect-limit error instead of the
origin-fetch error, because fetchFromOrigin reuses the redirect counter as
the retry counter. -/
theorem c3_retry_bound_counterexample :
    fetchFromOrigin cfgRetry7 origin503 "u" =
      ⟨6, [1000, 2000, 3000, 4000, 5000, 6000], .error .redirectLimitExceeded⟩ ∧
    cfgRetry7.retryAttempts + 1 = 8 := by
  constructor
  · decide
  · decide

/-! ### C7 — prefetch -/

/-- C7 (amended): prefetch pulls every input URL in order (one outcome per
input URL), continues past individual failures, and returns the results of
exactly the pulls that succeeded, in order; a failed pull contributes no
result, so the returned list can be shorter than the input list. -/
theorem c7_prefetch_amended (cfg : OriginConfig) (origin : String → Nat → OriginResp)
    (now : Nat) (s : CacheState) (urls : List String) (baseUrl : String) :
    (prefetch cfg origin now s urls baseUrl).1 =
      (pullOutcomes cfg origin now s urls baseUrl).filterMap Except.toOption ∧
    (pullOutcomes cfg origin now s urls baseUrl).length = urls.length ∧
    (prefetch cfg origin now s urls baseUrl).1.length ≤ urls.length := by
  induction urls generalizing s with
  | nil => exact ⟨rfl, rfl, by simp [prefetch]⟩
  | cons u rest ih =>
      rw [prefetch, pullOutcomes]
      cases hpull : pullFromOrigin cfg origin now s u baseUrl with
      | ok r =>
          have h := ih r.2
          refine ⟨?_, ?_, ?_⟩
          · simp [List.filterMap, Except.toOption, h.1]
          · simp [h.2.1]
          · simpa using Nat.succ_le_succ h.2.2
      | error e =>
          have h := ih s
          refine ⟨?_, ?_, ?_⟩
          · simp [List.filterMap, Except.toOption, h.1]
          · simp [h.2.1]
          · exact Nat.le_succ_of_le h.2.2

/-- Counterexample to C7 as stated: prefetching two URLs of which the first
404s (pullFromOrigin throws, prefetch skips it) returns a single result,
not one per input URL. -/
theorem c7_prefetch_counterexample :
    ((prefetch cfgDefault
        (fun u _ => if u = "http://origin/a.txt" then ⟨404, [], none⟩
                    else ⟨200, [1, 2, 3], some "text/plain"⟩)
        0 (emptyCache 1000 60) ["a.txt", "b.txt"] "http://cdn").1.length = 1) ∧
    ["a.txt", "b.txt"].length = 2 := by
  constructor
  · decide
  · decide

/-! ### Shape lemmas for cmSet and the eviction loop -/

/-- Eviction never touches the configuration fields, the ttl, or anything
except items, access log, disk and size accounting. -/
theorem evictLRU_config_fields (now : Nat) (s : CacheState) :
    (evictLRU now s).maxSize = s.maxSize ∧ (evictLRU now s).ttl = s.ttl := by
  unfold evictLRU
  split
  · exact ⟨rfl, rfl⟩
  · dsimp only
    split
    · exact ⟨rfl, rfl⟩
    · unfold cmDelete
      dsimp only
      split <;> exact ⟨rfl, rfl⟩

/-- The eviction loop preserves the configuration fields. -/
theorem ensureSpaceGo_config_fields (now req : Nat) :
    ∀ fuel s s', ensureSpaceGo now req fuel s = some s' →
      s'.maxSize = s.maxSize ∧ s'.ttl = s.ttl := by
  intro fuel
  induction fuel with
  | zero =>
      intro s s' h
      unfold ensureSpaceGo at h
      split at h
      · exact absurd h (by simp)
      · cases h; exact ⟨rfl, rfl⟩
  | succ fuel ih =>
      intro s s' h
      unfold ensureSpaceGo at h
      split at h
      · dsimp only at h
        split at h
        · exact absurd h (by simp)
        · have h2 := ih (evictLRU now s) s' h
          have h3 := evictLRU_config_fields now s
          exact ⟨h2.1.trans h3.1, h2.2.trans h3.2⟩
      · cases h; exact ⟨rfl, rfl⟩

/-- Inversion of a successful cmSet: the oversize check passed, the
eviction loop produced an intermediate state, and the result entry and
state have exactly the shapes the source constructs. -/
theorem cmSet_ok_shape (now : Nat) (s : CacheState) (k : String) (data : Bytes)
    (ct : String) (encs : List String) (e : CacheEntry) (s1 : CacheState)
    (h : cmSet now s k data ct encs = .ok (e, s1)) :
    ∃ s', ensureSpace now data.length s = some s' ∧
      ¬ (10 * data.length > s.maxSize) ∧
      e = { key := k, path := k, size := data.length, contentType := ct,
            etag := etagOf data, lastModified := now,
            expiresAt := now + (if s.ttl = 0 then 86400 else s.ttl) * 1000,
            accessCount := 0,
            compressed := encs.contains "gzip" || encs.contains "br",
            encodings := encs } ∧
      s1 = { items := ncSet now s.ttl s'.items k e,
             accessLog := setA s'.accessLog k 0,
             currentSize := s'.currentSize + data.length,
             disk := setA s'.disk k data,
             maxSize := s'.maxSize, ttl := s'.ttl } := by
  unfold cmSet at h
  split at h
  · exact absurd h (by simp)
  · rename_i hover
    split at h
    · exact absurd h (by simp)
    · rename_i s' hes
      refine ⟨s', hes, hover, ?_⟩
      injection h with h1
      injection h1 with he hs1
      exact ⟨he.symm, by rw [← hs1, ← he]⟩

/-! ### Association-list lemmas -/

theorem lookupA_setA_self {β : Type} (l : List (String × β)) (k : String) (v : β) :
    lookupA (setA l k v) k = some v := by
  induction l with
  | nil => simp [setA, lookupA]
  | cons p rest ih =>
      obtain ⟨k', v'⟩ := p
      by_cases h : k' = k
      · simp [setA, lookupA, h]
      · simp [setA, lookupA, h, ih]

theorem lookupA_setA_ne {β : Type} (l : List (String × β)) (k k2 : String) (v : β)
    (hne : k2 ≠ k) : lookupA (setA l k v) k2 = lookupA l k2 := by
  have hne2 : k ≠ k2 := Ne.symm hne
  induction l with
  | nil => simp [setA, lookupA, hne2]
  | cons p rest ih =>
      obtain ⟨k', v'⟩ := p
      by_cases h : k' = k
      · subst h
        simp [setA, lookupA, hne2]
      · simp only [setA, if_neg h, lookupA]
        by_cases h2 : k' = k2 <;> simp [h2, ih]

theorem lookupA_removeA_ne {β : Type} (l : List (String × β)) (k k2 : String)
    (hne : k2 ≠ k) : lookupA (removeA l k) k2 = lookupA l k2 := by
  have hne2 : k ≠ k2 := Ne.symm hne
  induction l with
  | nil => simp [removeA]
  | cons p rest ih =>
      obtain ⟨k', v'⟩ := p
      by_cases h : k' = k
      · subst h
        simp [removeA, lookupA, hne2]
      · simp only [removeA, if_neg h, lookupA]
        by_cases h2 : k' = k2 <;> simp [h2, ih]

/-! ### C6 — get semantics -/

/-- C6 (amended): `get` is absent for a key that was never inserted or was
deleted or evicted (no NodeCache item), and for a key whose NodeCache
expiry stamp has passed (the item is then dropped).  On a hit it returns
the entry with `accessCount` bumped to (access-log count) + 1, records that
count in the access log, and re-inserts the entry with the expiry stamp
re-armed to `now + ttl·1000` — so absence past `expiresAt` is guaranteed
only for entries that were never read after the write: a fresh write arms
the stamp to exactly `expiresAt`, but each read pushes it forward. -/
theorem c6_get_semantics_amended (now : Nat) (s : CacheState) (k : String) :
    (lookupA s.items k = none → cmGet now s k = (none, s)) ∧
    (∀ it, lookupA s.items k = some it → ncExpired now it.t = true →
      (cmGet now s k).1 = none ∧ (cmGet now s k).2.items = removeA s.items k) ∧
    (∀ it, lookupA s.items k = some it → ncExpired now it.t = false →
      (cmGet now s k).1 =
        some { it.entry with accessCount := (lookupA s.accessLog k).getD 0 + 1 } ∧
      lookupA (cmGet now s k).2.accessLog k = some ((lookupA s.accessLog k).getD 0 + 1) ∧
      lookupA (cmGet now s k).2.items k =
        some ⟨{ it.entry with accessCount := (lookupA s.accessLog k).getD 0 + 1 },
              ncT now s.ttl⟩) ∧
    (∀ t0 data ct encs e s1, 1 ≤ s.ttl →
      cmSet t0 s k data ct encs = .ok (e, s1) →
      lookupA s1.items k = some ⟨e, e.expiresAt⟩) := by
  refine ⟨?_, ?_, ?_, ?_⟩
  · intro h
    simp [cmGet, ncGet, h]
  · intro it h hexp
    constructor <;> simp [cmGet, ncGet, h, hexp]
  · intro it h hlive
    refine ⟨?_, ?_, ?_⟩
    · simp [cmGet, ncGet, h, hlive]
    · simp [cmGet, ncGet, h, hlive, lookupA_setA_self]
    · simp [cmGet, ncGet, h, hlive, ncSet, lookupA_setA_self]
  · intro t0 data ct encs e s1 httl hset
    obtain ⟨s', hes, hover, he, hs1⟩ := cmSet_ok_shape t0 s k data ct encs e s1 hset
    have httl0 : s.ttl ≠ 0 := by omega
    have hts : ncT t0 s.ttl = e.expiresAt := by
      rw [he]
      simp [ncT, httl0]
    rw [hs1]
    simp only [ncSet, hts]
    exact lookupA_setA_self _ _ _

/-- A live, never-read cache entry fixture. -/
def entryEx : CacheEntry :=
  { key := "k", path := "k", size := 1, contentType := "text/plain", etag := "e",
    lastModified := 0, expiresAt := 10000, accessCount := 0, compressed := false,
    encodings := [] }

/-- A one-entry cache state fixture (capacity 100, ttl 10 s). -/
def c6ex : CacheState :=
  { items := [("k", ⟨entryEx, 10000⟩)], accessLog := [("k", 0)], currentSize := 1,
    disk := [("k", [7])], maxSize := 100, ttl := 10 }

/-- Witness for c6_get_semantics_amended: a get on a never-inserted key of
the empty store is absent, and a get on the live entry of `c6ex` returns it
with accessCount bumped from 0 to 1. -/
theorem c6_get_semantics_witness :
    cmGet 500 (emptyCache 100 10) "nope" = (none, emptyCache 100 10) ∧
    (cmGet 500 c6ex "k").1 = some { entryEx with accessCount := 1 } := by
  constructor
  · exact (c6_get_semantics_amended 500 (emptyCache 100 10) "nope").1 (by decide)
  · have h := ((c6_get_semantics_amended 500 c6ex "k").2.2.1 ⟨entryEx, 10000⟩
      (by decide) (by decide)).1
    rw [h]
    decide

/-- Counterexample to C6 as stated: with ttl 10 s, an entry written at time
0 carries expiresAt = 10000; a read at 9000 re-arms the internal NodeCache
stamp to 19000, so a second read at 15000 — past expiresAt — still returns
the entry instead of absent.  The claim's "regardless of how recently they
were read" fails. -/
theorem c6_expired_entry_served_counterexample :
    ((cmSet 0 (emptyCache 100 10) "k" [7] "text/plain" []).map (fun r =>
      (cmGet 15000 (cmGet 9000 r.2 "k").2 "k").1.map (fun e => e.expiresAt)))
      = .ok (some 10000) ∧ (10000 : Nat) < 15000 := by
  constructor
  · decide
  · decide

theorem lookupA_mem {β : Type} (l : List (String × β)) (k : String) (v : β)
    (h : lookupA l k = some v) : (k, v) ∈ l := by
  induction l with
  | nil => simp [lookupA] at h
  | cons p rest ih =>
      obtain ⟨k', v'⟩ := p
      by_cases hk : k' = k
      · subst hk
        simp [lookupA] at h
        simp [h]
      · simp only [lookupA, if_neg hk] at h
        exact List.mem_cons_of_mem _ (ih h)

theorem lookupA_eq_none_iff {β : Type} (l : List (String × β)) (k : String) :
    lookupA l k = none ↔ k ∉ l.map Prod.fst := by
  induction l with
  | nil => simp [lookupA]
  | cons p rest ih =>
      obtain ⟨k', v'⟩ := p
      by_cases hk : k' = k
      · subst hk; simp [lookupA]
      · simp [lookupA, hk, ih, Ne.symm hk]

theorem lookupA_isSome_of_mem_keys {β : Type} (l : List (String × β)) (k : String)
    (h : k ∈ l.map Prod.fst) : ∃ v, lookupA l k = some v := by
  cases hl : lookupA l k with
  | none => exact absurd h ((lookupA_eq_none_iff l k).mp hl)
  | some v => exact ⟨v, rfl⟩

theorem keys_removeA {β : Type} (l : List (String × β)) (k : String) :
    (removeA l k).map Prod.fst = (l.map Prod.fst).erase k := by
  induction l with
  | nil => simp [removeA]
  | cons p rest ih =>
      obtain ⟨k', v'⟩ := p
      by_cases hk : k' = k
      · subst hk; simp [removeA, List.erase_cons_head]
      · simp [removeA, hk, List.erase_cons_tail, ih]

theorem removeA_subset {β : Type} (l : List (String × β)) (k : String) :
    ∀ p, p ∈ removeA l k → p ∈ l := by
  induction l with
  | nil => simp [removeA]
  | cons q rest ih =>
      obtain ⟨k', v'⟩ := q
      intro p hp
      by_cases hk : k' = k
      · subst hk
        simp only [removeA, if_pos rfl] at hp
        exact List.mem_cons_of_mem _ hp
      · simp only [removeA, if_neg hk] at hp
        rcases List.mem_cons.mp hp with h | h
        · exact h ▸ List.mem_cons_self _ _
        · exact List.mem_cons_of_mem _ (ih p h)

theorem removeA_eq_filter {β : Type} (l : List (String × β)) (k : String)
    (h : (l.map Prod.fst).Nodup) :
    removeA l k = l.filter (fun p => p.1 != k) := by
  induction l with
  | nil => simp [removeA]
  | cons p rest ih =>
      obtain ⟨k', v'⟩ := p
      simp only [List.map_cons, List.nodup_cons] at h
      by_cases hk : k' = k
      · subst hk
        have : rest.filter (fun p => p.1 != k') = rest := by
          apply List.filter_eq_self.mpr
          intro p hp
          have : p.1 ∈ rest.map Prod.fst := List.mem_map_of_mem Prod.fst hp
          simp only [bne_iff_ne, ne_eq]
          intro heq
          exact h.1 (heq ▸ this)
        simp [removeA, this]
      · simp [removeA, hk, ih h.2, bne_iff_ne, hk]

theorem mem_setA_weak {β : Type} (l : List (String × β)) (k : String) (v : β) :
    ∀ p, p ∈ setA l k v → p = (k, v) ∨ p ∈ l := by
  induction l with
  | nil => simp [setA]
  | cons q rest ih =>
      obtain ⟨k', v'⟩ := q
      intro p hp
      by_cases hk : k' = k
      · subst hk
        simp only [setA, if_pos rfl] at hp
        rcases List.mem_cons.mp hp with h | h
        · exact .inl (by simp [h])
        · exact .inr (List.mem_cons_of_mem _ h)
      · simp only [setA, if_neg hk] at hp
        rcases List.mem_cons.mp hp with h | h
        · exact .inr (h ▸ List.mem_cons_self _ _)
        · rcases ih p h with h2 | h2
          · exact .inl h2
          · exact .inr (List.mem_cons_of_mem _ h2)

theorem keys_setA_of_mem {β : Type} (l : List (String × β)) (k : String) (v : β)
    (h : k ∈ l.map Prod.fst) : (setA l k v).map Prod.fst = l.map Prod.fst := by
  induction l with
  | nil => simp at h
  | cons q rest ih =>
      obtain ⟨k', v'⟩ := q
      by_cases hk : k' = k
      · subst hk; simp [setA]
      · simp only [List.map_cons, List.mem_cons] at h
        rcases h with h | h
        · exact absurd h.symm hk
        · simp [setA, hk, ih h]

theorem keys_setA_of_not_mem {β : Type} (l : List (String × β)) (k : String) (v : β)
    (h : k ∉ l.map Prod.fst) : (setA l k v).map Prod.fst = l.map Prod.fst ++ [k] := by
  induction l with
  | nil => simp [setA]
  | cons q rest ih =>
      obtain ⟨k', v'⟩ := q
      simp only [List.map_cons, List.mem_cons] at h
      push_neg at h
      have hk : k' ≠ k := fun hx => h.1 hx.symm
      simp [setA, hk, ih h.2]

theorem nodup_keys_setA {β : Type} (l : List (String × β)) (k : String) (v : β)
    (h : (l.map Prod.fst).Nodup) : ((setA l k v).map Prod.fst).Nodup := by
  by_cases hm : k ∈ l.map Prod.fst
  · rw [keys_setA_of_mem l k v hm]; exact h
  · rw [keys_setA_of_not_mem l k v hm]
    simp [List.nodup_append, h, hm]

theorem nodup_keys_removeA {β : Type} (l : List (String × β)) (k : String)
    (h : (l.map Prod.fst).Nodup) : ((removeA l k).map Prod.fst).Nodup := by
  rw [keys_removeA]; exact h.erase k


/-! ### C4 — pattern invalidation -/

/-- The invalidation loop of invalidatePattern over a snapshot of keys:
when the visited keys are distinct, present and live, it deletes exactly
the matching ones and counts each deletion. -/
theorem invalidateFold (now : Nat) (test : String → Bool) :
    ∀ (ks : List String) (s : CacheState) (acc : Nat),
      (∀ k ∈ ks, k ∈ s.items.map Prod.fst) → ks.Nodup →
      (s.items.map Prod.fst).Nodup →
      (∀ p ∈ s.items, ncExpired now p.2.t = false) →
      (ks.foldl (invalidateStep now test) (acc, s)).1 = acc + (ks.filter test).length ∧
      (ks.foldl (invalidateStep now test) (acc, s)).2.items =
        s.items.filter (fun p => !(ks.contains p.1 && test p.1)) := by
  intro ks
  induction ks with
  | nil => intro s acc _ _ _ _; simp
  | cons k ks ih =>
      intro s acc hsub hknd hnd hlive
      have hkin : k ∈ s.items.map Prod.fst := hsub k (List.mem_cons_self _ _)
      obtain ⟨hkns, hksnd⟩ := List.nodup_cons.mp hknd
      rw [List.foldl_cons]
      by_cases ht : test k
      · obtain ⟨it, hit⟩ := lookupA_isSome_of_mem_keys s.items k hkin
        have hmem : (k, it) ∈ s.items := lookupA_mem _ _ _ hit
        have hitlive : ncExpired now it.t = false := hlive _ hmem
        have hdel : cmDelete now s k = (true, { s with
              disk := removeA s.disk it.entry.path,
              currentSize := s.currentSize - (it.entry.size : Int),
              items := removeA s.items k,
              accessLog := removeA s.accessLog k }) := by
          simp [cmDelete, ncGet, hit, hitlive]
        have hstep : invalidateStep now test (acc, s) k = (acc + 1, (cmDelete now s k).2) := by
          simp [invalidateStep, deleteStep, ht, hdel]
        rw [hstep]
        have hitems2 : ((cmDelete now s k).2).items = removeA s.items k := by rw [hdel]
        obtain ⟨ih1, ih2⟩ := ih (cmDelete now s k).2 (acc + 1)
          (by intro k2 hk2
              rw [hitems2, keys_removeA]
              have hne : k2 ≠ k := fun he => hkns (he ▸ hk2)
              exact (List.mem_erase_of_ne hne).mpr (hsub k2 (List.mem_cons_of_mem _ hk2)))
          hksnd
          (by rw [hitems2]; exact nodup_keys_removeA _ _ hnd)
          (by intro p hp
              rw [hitems2] at hp
              exact hlive p (removeA_subset _ _ p hp))
        refine ⟨?_, ?_⟩
        · rw [ih1, List.filter_cons, if_pos ht]
          simp only [List.length_cons]
          omega
        · rw [ih2, hitems2, removeA_eq_filter _ _ hnd, List.filter_filter]
          apply List.filter_congr
          intro p hp
          by_cases hpk : p.1 = k
          · simp [hpk, ht]
          · simp [hpk]
      · have hstep : invalidateStep now test (acc, s) k = (acc, s) := by
          simp [invalidateStep, ht]
        rw [hstep]
        obtain ⟨ih1, ih2⟩ := ih s acc
          (fun k2 hk2 => hsub k2 (List.mem_cons_of_mem _ hk2)) hksnd hnd hlive
        refine ⟨?_, ?_⟩
        · rw [ih1, List.filter_cons, if_neg ht]
        · rw [ih2]
          apply List.filter_congr
          intro p hp
          by_cases hpk : p.1 = k
          · simp [hpk, ht]
          · simp [hpk]

/-- C4 (amended): invalidatePattern with an uncompilable pattern throws
InvalidPattern and deletes nothing (the store is unchanged); with a
compiled pattern it deletes exactly the live entries whose key the
pattern's `test` matches — and `RegExp.test` matches anywhere in the key
(search/substring semantics, not a full anchored match) — returning their
count. -/
theorem c4_invalidate_amended (now : Nat) (s : CacheState)
    (hnodup : (s.items.map Prod.fst).Nodup)
    (hlive : ∀ p ∈ s.items, ncExpired now p.2.t = false) :
    cmInvalidate now s none = (.error (), s) ∧
    (∀ test : String → Bool,
      (cmInvalidate now s (some test)).1 =
        .ok ((s.items.filter (fun p => test p.1)).length) ∧
      (cmInvalidate now s (some test)).2.items =
        s.items.filter (fun p => !test p.1)) := by
  refine ⟨rfl, ?_⟩
  intro test
  obtain ⟨h1, h2⟩ := invalidateFold now test (s.items.map Prod.fst) s 0
    (fun k hk => hk) (hnodup) hnodup hlive
  constructor
  · show Except.ok ((s.items.map Prod.fst).foldl (invalidateStep now test) (0, s)).1 = _
    rw [h1, List.filter_map]
    simp only [Nat.zero_add, List.length_map]
    congr 1
  · show ((s.items.map Prod.fst).foldl (invalidateStep now test) (0, s)).2.items = _
    rw [h2]
    apply List.filter_congr
    intro p hp
    have hmem : p.1 ∈ s.items.map Prod.fst := List.mem_map_of_mem Prod.fst hp
    have hcon : (s.items.map Prod.fst).contains p.1 = true := by
      simpa [List.contains] using hmem
    rw [hcon, Bool.true_and]

/-- A two-entry live store fixture with keys "bab" and "zz". -/
def c4ex : CacheState :=
  { items := [("bab", ⟨{ entryEx with key := "bab", path := "bab" }, 10000⟩),
              ("zz", ⟨{ entryEx with key := "zz", path := "zz" }, 10000⟩)],
    accessLog := [("bab", 0), ("zz", 0)], currentSize := 2,
    disk := [("bab", [1]), ("zz", [2])], maxSize := 100, ttl := 10 }

/-- Witness for c4_invalidate_amended: on the two-entry fixture, the
literal pattern "a" (whose compiled `test` matches anywhere) deletes
exactly the entry whose key contains an "a", and an uncompilable pattern
changes nothing. -/
theorem c4_invalidate_witness :
    (cmInvalidate 0 c4ex (some (jsRegexTestLit "a"))).1 = .ok 1 ∧
    (cmInvalidate 0 c4ex (some (jsRegexTestLit "a"))).2.items =
      [("zz", ⟨{ entryEx with key := "zz", path := "zz" }, 10000⟩)] ∧
    cmInvalidate 0 c4ex none = (.error (), c4ex) := by
  obtain ⟨herr, hsome⟩ := c4_invalidate_amended 0 c4ex (by decide) (by decide)
  obtain ⟨hcount, hitems⟩ := hsome (jsRegexTestLit "a")
  exact ⟨hcount.trans (by decide), hitems.trans (by decide), herr⟩

/-- Counterexample to C4 as stated: the pattern "a" compiles and its
`RegExp.test` matches the key "bab" (a substring search), so the code
deletes that entry and returns count 1 — although "a" is not a full
regular-expression match of "bab", under which nothing would be deleted. -/
theorem c4_invalidate_counterexample :
    (cmInvalidate 0 c4ex (some (jsRegexTestLit "a"))).1 = .ok 1 ∧
    jsRegexTestLit "a" "bab" = true ∧
    fullMatchLit "a" "bab" = false ∧
    lookupA (cmInvalidate 0 c4ex (some (jsRegexTestLit "a"))).2.items "bab" = none := by
  refine ⟨?_, ?_, ?_, ?_⟩ <;> decide

/-! ### C2 — LRU eviction order -/

theorem lookupA_removeA_self {β : Type} (l : List (String × β)) (k : String)
    (h : (l.map Prod.fst).Nodup) : lookupA (removeA l k) k = none := by
  induction l with
  | nil => simp [removeA, lookupA]
  | cons p rest ih =>
      obtain ⟨k', v'⟩ := p
      simp only [List.map_cons, List.nodup_cons] at h
      by_cases hk : k' = k
      · subst hk
        simp only [removeA, if_pos rfl]
        exact (lookupA_eq_none_iff rest k').mpr h.1
      · simp only [removeA, if_neg hk, lookupA, if_neg hk]
        exact ih h.2

/-- The first entry of an access-log list achieving the minimal count:
the element a stable ascending sort puts first. -/
def firstMinBy : List (String × Nat) → Option (String × Nat)
  | [] => none
  | x :: xs =>
      match firstMinBy xs with
      | none => some x
      | some m => if x.2 ≤ m.2 then some x else some m

theorem insertByCount_head (x : String × Nat) (l : List (String × Nat)) :
    (insertByCount x l).head? =
      some (match l with | [] => x | y :: _ => if x.2 ≤ y.2 then x else y) := by
  cases l with
  | nil => rfl
  | cons y t =>
      by_cases h : x.2 ≤ y.2
      · simp [insertByCount, h]
      · simp [insertByCount, h]

theorem sortByCount_head (l : List (String × Nat)) :
    (sortByCount l).head? = firstMinBy l := by
  induction l with
  | nil => rfl
  | cons x xs ih =>
      rw [sortByCount, insertByCount_head, firstMinBy]
      cases hs : sortByCount xs with
      | nil =>
          rw [hs] at ih
          simp only [List.head?_nil] at ih
          rw [← ih]
      | cons y t =>
          rw [hs] at ih
          simp only [List.head?_cons] at ih
          rw [← ih]
          by_cases h : x.2 ≤ y.2 <;> simp [h]

theorem firstMinBy_mem (l : List (String × Nat)) (m : String × Nat)
    (h : firstMinBy l = some m) : m ∈ l := by
  induction l generalizing m with
  | nil => simp [firstMinBy] at h
  | cons x xs ih =>
      rw [firstMinBy] at h
      cases hf : firstMinBy xs with
      | none =>
          rw [hf] at h
          dsimp only at h
          injection h with h
          exact h ▸ List.mem_cons_self _ _
      | some m0 =>
          rw [hf] at h
          dsimp only at h
          by_cases hle : x.2 ≤ m0.2
          · rw [if_pos hle] at h
            injection h with h
            exact h ▸ List.mem_cons_self _ _
          · rw [if_neg hle] at h
            injection h with h
            subst h
            exact List.mem_cons_of_mem _ (ih _ hf)

theorem firstMinBy_eq_none_iff (l : List (String × Nat)) :
    firstMinBy l = none ↔ l = [] := by
  cases l with
  | nil => simp [firstMinBy]
  | cons x xs =>
      rw [firstMinBy]
      cases hf : firstMinBy xs with
      | none => simp
      | some m =>
          by_cases hle : x.2 ≤ m.2 <;> simp [hle]

theorem firstMinBy_min (l : List (String × Nat)) (m : String × Nat)
    (h : firstMinBy l = some m) : ∀ p ∈ l, m.2 ≤ p.2 := by
  induction l generalizing m with
  | nil => simp [firstMinBy] at h
  | cons x xs ih =>
      rw [firstMinBy] at h
      cases hf : firstMinBy xs with
      | none =>
          rw [hf] at h
          dsimp only at h
          injection h with h
          subst h
          intro p hp
          rcases List.mem_cons.mp hp with h | h
          · rw [h]
          · have hxs : xs = [] := (firstMinBy_eq_none_iff xs).mp hf
            subst hxs
            simp at h
      | some m0 =>
          rw [hf] at h
          dsimp only at h
          by_cases hle : x.2 ≤ m0.2
          · rw [if_pos hle] at h
            injection h with h
            subst h
            intro p hp
            rcases List.mem_cons.mp hp with h | h
            · rw [h]
            · exact hle.trans (ih m0 hf p h)
          · rw [if_neg hle] at h
            injection h with h
            subst h
            intro p hp
            rcases List.mem_cons.mp hp with h | h
            · rw [h]; omega
            · exact ih _ hf p h

theorem firstMinBy_earliest (l : List (String × Nat)) (m : String × Nat)
    (h : firstMinBy l = some m) :
    ∃ l1 l2, l = l1 ++ m :: l2 ∧ ∀ p ∈ l1, m.2 < p.2 := by
  induction l generalizing m with
  | nil => simp [firstMinBy] at h
  | cons x xs ih =>
      rw [firstMinBy] at h
      cases hf : firstMinBy xs with
      | none =>
          rw [hf] at h
          dsimp only at h
          injection h with h
          subst h
          exact ⟨[], xs, rfl, by simp⟩
      | some m0 =>
          rw [hf] at h
          dsimp only at h
          by_cases hle : x.2 ≤ m0.2
          · rw [if_pos hle] at h
            injection h with h
            subst h
            exact ⟨[], xs, rfl, by simp⟩
          · rw [if_neg hle] at h
            injection h with h
            subst h
            obtain ⟨l1, l2, heq, hlt⟩ := ih _ hf
            refine ⟨x :: l1, l2, by rw [heq]; rfl, ?_⟩
            intro p hp
            rcases List.mem_cons.mp hp with h | h
            · rw [h]; omega
            · exact hlt p h

/-- Insert a fresh n-byte entry, keeping the state if the insert threw
(never the case in the scenarios below — the theorems check the final
contents explicitly). -/
def trySet (now : Nat) (s : CacheState) (k : String) (n : Nat) : CacheState :=
  match cmSet now s k (List.replicate n 7) "application/octet-stream" [] with
  | .ok r => r.2
  | .error _ => s

/-- Insert a sequence of fresh n-byte entries in order. -/
def seqSet (now : Nat) (ks : List String) (n : Nat) (s : CacheState) : CacheState :=
  ks.foldl (fun st k => trySet now st k n) s

/-- Ten 10-byte entries A, B, C, F1…F7 exactly filling a 100-byte store
(each respects the 10 % single-entry cap). -/
def c2base : CacheState :=
  seqSet 0 ["A", "B", "C", "F1", "F2", "F3", "F4", "F5", "F6", "F7"] 10 (emptyCache 100 60)

/-- c2base after reading A twice and B once; C and the fillers never read. -/
def c2read : CacheState :=
  (cmGet 0 (cmGet 0 (cmGet 0 c2base "A").2 "A").2 "B").2

/-- C2: whenever eviction runs on a store whose NodeCache keys are
distinct and whose selected victim is live, it removes precisely the entry
`firstMinBy` picks from the access log: an entry of globally minimal
access count such that every log row before it has a strictly greater
count (ties broken by insertion order, oldest first) — the stable sort
places it first.  Concretely: with A, B, C inserted first (A read twice,
B once, C never) and seven fillers, an insert of D that forces exactly one
eviction evicts C; with no reads at all, the same insert evicts the oldest
entry A. -/
theorem c2_eviction_selects_lowest_access_count_oldest_first :
    (∀ (now : Nat) (s : CacheState) (kmin : String) (cmin : Nat) (it : NCItem),
      (s.items.map Prod.fst).Nodup →
      firstMinBy s.accessLog = some (kmin, cmin) →
      lookupA s.items kmin = some it →
      ncExpired now it.t = false →
      (∀ q ∈ s.accessLog,
        ((lookupA s.items q.1).map (fun it2 => it2.entry.accessCount)).getD q.2 = q.2) →
      it.entry.accessCount = cmin ∧
      (∀ q ∈ s.accessLog, ∀ it2, lookupA s.items q.1 = some it2 →
        it.entry.accessCount ≤ it2.entry.accessCount) ∧
      (∃ l1 l2, s.accessLog = l1 ++ (kmin, cmin) :: l2 ∧ ∀ q ∈ l1, cmin < q.2) ∧
      evictLRU now s = (cmDelete now s kmin).2 ∧
      lookupA (evictLRU now s).items kmin = none) ∧
    (trySet 0 c2read "D" 10).items.map Prod.fst =
      ["A", "B", "F1", "F2", "F3", "F4", "F5", "F6", "F7", "D"] ∧
    lookupA (trySet 0 c2read "D" 10).items "C" = none ∧
    (trySet 0 c2base "D" 10).items.map Prod.fst =
      ["B", "C", "F1", "F2", "F3", "F4", "F5", "F6", "F7", "D"] ∧
    lookupA (trySet 0 c2base "D" 10).items "A" = none := by
  refine ⟨?_, by decide, by decide, by decide, by decide⟩
  intro now s kmin cmin it hnodup hsel hit hlive hsync
  have hmem : (kmin, cmin) ∈ s.accessLog := firstMinBy_mem _ _ hsel
  have hcount : it.entry.accessCount = cmin := by
    have h := hsync _ hmem
    rw [hit] at h
    simpa using h
  have hevict : evictLRU now s = (cmDelete now s kmin).2 := by
    have hsort := sortByCount_head s.accessLog
    rw [hsel] at hsort
    cases hs : sortByCount s.accessLog with
    | nil => rw [hs] at hsort; simp at hsort
    | cons p rest =>
        rw [hs] at hsort
        simp only [List.head?_cons] at hsort
        injection hsort with hp
        subst hp
        unfold evictLRU
        rw [hs]
        simp [ncGet, hit, hlive]
  refine ⟨hcount, ?_, ?_, hevict, ?_⟩
  · intro q hq it2 hit2
    have h := hsync q hq
    rw [hit2] at h
    simp only [Option.map_some', Option.getD_some] at h
    rw [hcount, h]
    exact firstMinBy_min _ _ hsel q hq
  · exact firstMinBy_earliest _ _ hsel
  · rw [hevict]
    have hdel : (cmDelete now s kmin).2.items = removeA s.items kmin := by
      simp [cmDelete, ncGet, hit, hlive]
    rw [hdel]
    exact lookupA_removeA_self _ _ hnodup

/-- Witness for c2_eviction_selects_lowest_access_count_oldest_first: in
the read scenario (A read twice, B once, C never), the selection applies
concretely and eviction removes C. -/
theorem c2_eviction_witness :
    evictLRU 0 c2read = (cmDelete 0 c2read "C").2 ∧
    lookupA (evictLRU 0 c2read).items "C" = none := by
  cases hit : lookupA c2read.items "C" with
  | none => exact absurd hit (by decide)
  | some it =>
      have hlive : ncExpired 0 it.t = false := by
        simp [ncExpired]
      have h := c2_eviction_selects_lowest_access_count_oldest_first.1 0 c2read "C" 0 it
        (by decide) (by decide) hit hlive (by decide)
      exact ⟨h.2.2.2.1, h.2.2.2.2⟩

/-! ### C9 / C10 — operation sequences, key uniqueness, size accounting -/

/-- The store operations of the administrative surface. -/
inductive CacheOp where
  | put (k : String) (data : Bytes) (contentType : String)
  | read (k : String)
  | del (k : String)
  | invalidate (rx : Option (String → Bool))
  | purgeAll

/-- Apply one operation.  A put that throws leaves the state unchanged:
the oversize check throws before any mutation, and the divergence marker
stands for a hang with no observable final state. -/
def applyOp (now : Nat) (s : CacheState) : CacheOp → CacheState
  | .put k data ct =>
      match cmSet now s k data ct [] with
      | .ok r => r.2
      | .error _ => s
  | .read k => (cmGet now s k).2
  | .del k => (cmDelete now s k).2
  | .invalidate rx => (cmInvalidate now s rx).2
  | .purgeAll => (cmPurge now s).2

/-- Run a sequence of operations (all at the same instant `now`: the
claims quantify over operation sequences, not over the passage of time). -/
def runOps (now : Nat) (s : CacheState) (ops : List CacheOp) : CacheState :=
  ops.foldl (applyOp now) s

/-- Sum of the sizes of the live entries. -/
def sizeSum (items : List (String × NCItem)) : Int :=
  (items.map (fun p => (p.2.entry.size : Int))).sum

theorem sizeSum_setA_fresh (l : List (String × NCItem)) (k : String) (v : NCItem)
    (h : lookupA l k = none) : sizeSum (setA l k v) = sizeSum l + v.entry.size := by
  induction l with
  | nil => simp [setA, sizeSum]
  | cons p rest ih =>
      obtain ⟨k', v'⟩ := p
      by_cases hk : k' = k
      · simp [lookupA, hk] at h
      · simp only [lookupA, if_neg hk] at h
        simp only [setA, if_neg hk, sizeSum, List.map_cons, List.sum_cons] at *
        rw [ih h]
        ring

theorem sizeSum_setA_update (l : List (String × NCItem)) (k : String) (v it : NCItem)
    (h : lookupA l k = some it) (hnd : (l.map Prod.fst).Nodup)
    (hsz : v.entry.size = it.entry.size) : sizeSum (setA l k v) = sizeSum l := by
  induction l with
  | nil => simp [lookupA] at h
  | cons p rest ih =>
      obtain ⟨k', v'⟩ := p
      simp only [List.map_cons, List.nodup_cons] at hnd
      by_cases hk : k' = k
      · simp only [lookupA, if_pos hk] at h
        injection h with h
        subst h
        simp only [setA, if_pos hk, sizeSum, List.map_cons, List.sum_cons]
        rw [hsz]
      · simp only [lookupA, if_neg hk] at h
        simp only [setA, if_neg hk, sizeSum, List.map_cons, List.sum_cons]
        have := ih h hnd.2
        simp only [sizeSum] at this
        rw [this]

theorem sizeSum_removeA (l : List (String × NCItem)) (k : String) (it : NCItem)
    (h : lookupA l k = some it) (hnd : (l.map Prod.fst).Nodup) :
    sizeSum (removeA l k) = sizeSum l - it.entry.size := by
  induction l with
  | nil => simp [lookupA] at h
  | cons p rest ih =>
      obtain ⟨k', v'⟩ := p
      simp only [List.map_cons, List.nodup_cons] at hnd
      by_cases hk : k' = k
      · simp only [lookupA, if_pos hk] at h
        injection h with h
        subst h
        simp only [removeA, if_pos hk, sizeSum, List.map_cons, List.sum_cons]
        ring
      · simp only [lookupA, if_neg hk] at h
        simp only [removeA, if_neg hk, sizeSum, List.map_cons, List.sum_cons]
        have := ih h hnd.2
        simp only [sizeSum] at this
        rw [this]
        ring

/-- cmDelete on a present, live key: the full resulting state. -/
theorem cmDelete_some_shape (now : Nat) (s : CacheState) (k : String) (it : NCItem)
    (hit : lookupA s.items k = some it) (hlive : ncExpired now it.t = false) :
    cmDelete now s k = (true, { s with
      disk := removeA s.disk it.entry.path,
      currentSize := s.currentSize - (it.entry.size : Int),
      items := removeA s.items k,
      accessLog := removeA s.accessLog k }) := by
  simp [cmDelete, ncGet, hit, hlive]

/-- cmDelete on an absent key: a no-op returning false. -/
theorem cmDelete_none_shape (now : Nat) (s : CacheState) (k : String)
    (h : lookupA s.items k = none) : cmDelete now s k = (false, s) := by
  simp [cmDelete, ncGet, h]

/-- Case analysis of one eviction step: nothing to evict (or the selected
key is missing from NodeCache) leaves the state unchanged; a selected key
whose NodeCache item expired is merely dropped from the item list; a live
selected key is fully deleted. -/
theorem evictLRU_cases (now : Nat) (s : CacheState) :
    evictLRU now s = s ∨
    (∃ k it, lookupA s.items k = some it ∧ ncExpired now it.t = true ∧
      evictLRU now s = { s with items := removeA s.items k }) ∨
    (∃ k it, lookupA s.items k = some it ∧ ncExpired now it.t = false ∧
      evictLRU now s = { s with
        disk := removeA s.disk it.entry.path,
        currentSize := s.currentSize - (it.entry.size : Int),
        items := removeA s.items k,
        accessLog := removeA s.accessLog k }) := by
  unfold evictLRU
  cases hs : sortByCount s.accessLog with
  | nil => exact .inl rfl
  | cons p rest =>
      obtain ⟨k0, c0⟩ := p
      dsimp only
      cases hlk : lookupA s.items k0 with
      | none =>
          refine .inl ?_
          simp [ncGet, hlk]
      | some it =>
          cases hexp : ncExpired now it.t with
          | true =>
              refine .inr (.inl ⟨k0, it, hlk, hexp, ?_⟩)
              simp [ncGet, hlk, hexp]
          | false =>
              refine .inr (.inr ⟨k0, it, hlk, hexp, ?_⟩)
              simp [ncGet, hlk, hexp, cmDelete]

/-- The keys surviving any single eviction step are among the original keys. -/
theorem evictLRU_keys_subset (now : Nat) (s : CacheState) :
    ∀ k, k ∈ (evictLRU now s).items.map Prod.fst → k ∈ s.items.map Prod.fst := by
  intro k hk
  rcases evictLRU_cases now s with h | ⟨k0, it, _, _, h⟩ | ⟨k0, it, _, _, h⟩
  · rw [h] at hk; exact hk
  · rw [h] at hk
    simp only at hk
    rw [keys_removeA] at hk
    exact (List.erase_subset _ _) hk
  · rw [h] at hk
    simp only at hk
    rw [keys_removeA] at hk
    exact (List.erase_subset _ _) hk

theorem nodup_items_cmGet (now : Nat) (s : CacheState) (k : String)
    (h : (s.items.map Prod.fst).Nodup) :
    (((cmGet now s k).2).items.map Prod.fst).Nodup := by
  unfold cmGet
  cases hlk : lookupA s.items k with
  | none => simpa [ncGet, hlk] using h
  | some it =>
      cases hexp : ncExpired now it.t with
      | true =>
          simp only [ncGet, hlk, hexp]
          exact nodup_keys_removeA _ _ h
      | false =>
          simp only [ncGet, hlk, hexp, ncSet]
          exact nodup_keys_setA _ _ _ h

theorem nodup_items_cmDelete (now : Nat) (s : CacheState) (k : String)
    (h : (s.items.map Prod.fst).Nodup) :
    (((cmDelete now s k).2).items.map Prod.fst).Nodup := by
  cases hlk : lookupA s.items k with
  | none => rw [cmDelete_none_shape now s k hlk]; exact h
  | some it =>
      cases hexp : ncExpired now it.t with
      | true =>
          unfold cmDelete
          simp only [ncGet, hlk, hexp]
          exact nodup_keys_removeA _ _ h
      | false =>
          rw [cmDelete_some_shape now s k it hlk hexp]
          exact nodup_keys_removeA _ _ h

theorem nodup_items_evictLRU (now : Nat) (s : CacheState)
    (h : (s.items.map Prod.fst).Nodup) :
    ((evictLRU now s).items.map Prod.fst).Nodup := by
  rcases evictLRU_cases now s with he | ⟨k0, it, _, _, he⟩ | ⟨k0, it, _, _, he⟩ <;> rw [he]
  · exact h
  · exact nodup_keys_removeA _ _ h
  · exact nodup_keys_removeA _ _ h

theorem nodup_items_ensureSpaceGo (now req : Nat) :
    ∀ fuel (s s' : CacheState), ensureSpaceGo now req fuel s = some s' →
      (s.items.map Prod.fst).Nodup → (s'.items.map Prod.fst).Nodup := by
  intro fuel
  induction fuel with
  | zero =>
      intro s s' h hn
      unfold ensureSpaceGo at h
      split at h
      · exact absurd h (by simp)
      · cases h; exact hn
  | succ fuel ih =>
      intro s s' h hn
      unfold ensureSpaceGo at h
      split at h
      · dsimp only at h
        split at h
        · exact absurd h (by simp)
        · exact ih _ _ h (nodup_items_evictLRU now s hn)
      · cases h; exact hn

theorem ensureSpaceGo_keys_subset (now req : Nat) :
    ∀ fuel (s s' : CacheState), ensureSpaceGo now req fuel s = some s' →
      ∀ k, k ∈ s'.items.map Prod.fst → k ∈ s.items.map Prod.fst := by
  intro fuel
  induction fuel with
  | zero =>
      intro s s' h
      unfold ensureSpaceGo at h
      split at h
      · exact absurd h (by simp)
      · cases h; exact fun k hk => hk
  | succ fuel ih =>
      intro s s' h
      unfold ensureSpaceGo at h
      split at h
      · dsimp only at h
        split at h
        · exact absurd h (by simp)
        · exact fun k hk => evictLRU_keys_subset now s k (ih _ _ h k hk)
      · cases h; exact fun k hk => hk

theorem nodup_items_cmSet (now : Nat) (s : CacheState) (k : String) (data : Bytes)
    (ct : String) (encs : List String) (e : CacheEntry) (s1 : CacheState)
    (hset : cmSet now s k data ct encs = .ok (e, s1))
    (h : (s.items.map Prod.fst).Nodup) : (s1.items.map Prod.fst).Nodup := by
  obtain ⟨s', hes, _, _, hs1⟩ := cmSet_ok_shape now s k data ct encs e s1 hset
  rw [hs1]
  exact nodup_keys_setA _ _ _ (nodup_items_ensureSpaceGo now data.length _ _ _ hes h)

theorem nodup_items_deleteStep_fold (now : Nat) :
    ∀ (ks : List String) (acc : Nat) (s : CacheState),
      (s.items.map Prod.fst).Nodup →
      (((ks.foldl (deleteStep now) (acc, s)).2).items.map Prod.fst).Nodup := by
  intro ks
  induction ks with
  | nil => intro acc s h; exact h
  | cons k ks ih =>
      intro acc s h
      rw [List.foldl_cons]
      have hstep : (deleteStep now (acc, s) k).2 = (cmDelete now s k).2 := rfl
      have h2 := nodup_items_cmDelete now s k h
      have : deleteStep now (acc, s) k =
          ((deleteStep now (acc, s) k).1, (cmDelete now s k).2) := by
        rw [← hstep]
      rw [this]
      exact ih _ _ h2

theorem nodup_items_invalidateStep_fold (now : Nat) (test : String → Bool) :
    ∀ (ks : List String) (acc : Nat) (s : CacheState),
      (s.items.map Prod.fst).Nodup →
      (((ks.foldl (invalidateStep now test) (acc, s)).2).items.map Prod.fst).Nodup := by
  intro ks
  induction ks with
  | nil => intro acc s h; exact h
  | cons k ks ih =>
      intro acc s h
      rw [List.foldl_cons]
      by_cases ht : test k
      · have : invalidateStep now test (acc, s) k =
            ((invalidateStep now test (acc, s) k).1, (cmDelete now s k).2) := by
          simp [invalidateStep, deleteStep, ht]
        rw [this]
        exact ih _ _ (nodup_items_cmDelete now s k h)
      · have : invalidateStep now test (acc, s) k = (acc, s) := by
          simp [invalidateStep, ht]
        rw [this]
        exact ih _ _ h

theorem nodup_items_applyOp (now : Nat) (s : CacheState) (op : CacheOp)
    (h : (s.items.map Prod.fst).Nodup) :
    ((applyOp now s op).items.map Prod.fst).Nodup := by
  cases op with
  | put k data ct =>
      simp only [applyOp]
      cases hset : cmSet now s k data ct [] with
      | ok r => exact nodup_items_cmSet now s k data ct [] r.1 r.2 (by rw [hset]) h
      | error e => exact h
  | read k => exact nodup_items_cmGet now s k h
  | del k => exact nodup_items_cmDelete now s k h
  | invalidate rx =>
      cases rx with
      | none => exact h
      | some test =>
          simp only [applyOp, cmInvalidate]
          exact nodup_items_invalidateStep_fold now test _ 0 s h
  | purgeAll =>
      simp only [applyOp, cmPurge]
      exact nodup_items_deleteStep_fold now _ 0 s h

/-- C9: (1) across every operation sequence from the empty store, the
NodeCache key list stays duplicate-free — at most one live entry per key
at any time; (2) a successful put (in particular one replacing a live
key) installs, under the key, exactly the new entry with a fresh NodeCache
stamp, the new bytes at the key's path (overwriting the old bytes, which
live at the same path), metadata pointing at that path with the new size,
and a zeroed access-log row — so after the put the caller can only observe
the complete new entry. -/
theorem c9_key_uniqueness_and_replacement :
    (∀ (now mx ttl : Nat) (ops : List CacheOp),
      ((runOps now (emptyCache mx ttl) ops).items.map Prod.fst).Nodup) ∧
    (∀ (now : Nat) (s : CacheState) (k : String) (data : Bytes) (ct : String)
        (encs : List String) (e : CacheEntry) (s1 : CacheState),
      cmSet now s k data ct encs = .ok (e, s1) →
      lookupA s1.items k = some ⟨e, ncT now s.ttl⟩ ∧
      e.path = k ∧ e.key = k ∧ e.size = data.length ∧
      lookupA s1.disk k = some data ∧
      lookupA s1.accessLog k = some 0) := by
  constructor
  · intro now mx ttl ops
    have hgen : ∀ (s : CacheState), (s.items.map Prod.fst).Nodup →
        ((runOps now s ops).items.map Prod.fst).Nodup := by
      induction ops with
      | nil => exact fun s h => h
      | cons op ops ih =>
          intro s h
          exact ih _ (nodup_items_applyOp now s op h)
    exact hgen _ (by simp [emptyCache])
  · intro now s k data ct encs e s1 hset
    obtain ⟨s', hes, hover, he, hs1⟩ := cmSet_ok_shape now s k data ct encs e s1 hset
    rw [hs1]
    refine ⟨?_, ?_, ?_, ?_, ?_, ?_⟩
    · simp only [ncSet]
      exact lookupA_setA_self _ _ _
    · rw [he]
    · rw [he]
    · rw [he]
    · exact lookupA_setA_self _ _ _
    · exact lookupA_setA_self _ _ _

/-- Witness for c9_key_uniqueness_and_replacement: a concrete successful
put into the empty store, with its installed entry, bytes and log row. -/
theorem c9_key_uniqueness_witness :
    ∃ e s1, cmSet 0 (emptyCache 100 10) "k" [1, 2] "text/plain" [] = .ok (e, s1) ∧
      lookupA s1.items "k" = some ⟨e, ncT 0 10⟩ ∧
      lookupA s1.disk "k" = some [1, 2] ∧ lookupA s1.accessLog "k" = some 0 := by
  have hok : (match cmSet 0 (emptyCache 100 10) "k" [1, 2] "text/plain" [] with
      | .ok _ => true
      | .error _ => false) = true := by decide
  cases hset : cmSet 0 (emptyCache 100 10) "k" [1, 2] "text/plain" [] with
  | error err =>
      rw [hset] at hok
      exact absurd hok (by simp)
  | ok r =>
      obtain ⟨e, s1⟩ := r
      obtain ⟨h1, _, _, _, h5, h6⟩ :=
        c9_key_uniqueness_and_replacement.2 0 (emptyCache 100 10) "k" [1, 2]
          "text/plain" [] e s1 hset
      exact ⟨e, s1, rfl, h1, h5, h6⟩

/-- A NodeCache stamp armed at the current instant is never already
expired. -/
theorem ncT_live (now ttl : Nat) : ncExpired now (ncT now ttl) = false := by
  unfold ncExpired ncT
  split
  · simp
  · simp

/-- cmGet on a present, live key: the full resulting pair. -/
theorem cmGet_some_shape (now : Nat) (s : CacheState) (k : String) (it : NCItem)
    (hit : lookupA s.items k = some it) (hl : ncExpired now it.t = false) :
    cmGet now s k =
      (some { it.entry with accessCount := (lookupA s.accessLog k).getD 0 + 1 },
       { s with
         items := ncSet now s.ttl s.items k
           { it.entry with accessCount := (lookupA s.accessLog k).getD 0 + 1 },
         accessLog := setA s.accessLog k ((lookupA s.accessLog k).getD 0 + 1) }) := by
  simp [cmGet, ncGet, hit, hl]

/-- Accounting invariant at a fixed instant: distinct NodeCache keys, no
item internally expired, and currentSize equal to the live byte total. -/
structure SizeInv (now : Nat) (s : CacheState) : Prop where
  nodupItems : (s.items.map Prod.fst).Nodup
  live : ∀ p ∈ s.items, ncExpired now p.2.t = false
  sizeEq : s.currentSize = sizeSum s.items

theorem sizeInv_cmGet (now : Nat) (s : CacheState) (k : String)
    (h : SizeInv now s) : SizeInv now ((cmGet now s k).2) := by
  cases hlk : lookupA s.items k with
  | none =>
      have : cmGet now s k = (none, s) := by simp [cmGet, ncGet, hlk]
      rw [this]
      exact h
  | some it =>
      have hl : ncExpired now it.t = false := h.live _ (lookupA_mem _ _ _ hlk)
      rw [cmGet_some_shape now s k it hlk hl]
      refine ⟨?_, ?_, ?_⟩
      · exact nodup_keys_setA _ _ _ h.nodupItems
      · intro p hp
        rcases mem_setA_weak _ _ _ p hp with hq | hq
        · rw [hq]
          exact ncT_live now s.ttl
        · exact h.live p hq
      · simp only [ncSet]
        rw [sizeSum_setA_update s.items k
          ⟨{ it.entry with accessCount := (lookupA s.accessLog k).getD 0 + 1 },
            ncT now s.ttl⟩ it hlk h.nodupItems rfl]
        exact h.sizeEq

theorem sizeInv_cmDelete (now : Nat) (s : CacheState) (k : String)
    (h : SizeInv now s) : SizeInv now ((cmDelete now s k).2) := by
  cases hlk : lookupA s.items k with
  | none => rw [cmDelete_none_shape now s k hlk]; exact h
  | some it =>
      have hl : ncExpired now it.t = false := h.live _ (lookupA_mem _ _ _ hlk)
      rw [cmDelete_some_shape now s k it hlk hl]
      refine ⟨?_, ?_, ?_⟩
      · exact nodup_keys_removeA _ _ h.nodupItems
      · intro p hp
        exact h.live p (removeA_subset _ _ p hp)
      · simp only
        rw [sizeSum_removeA s.items k it hlk h.nodupItems, h.sizeEq]

theorem sizeInv_evictLRU (now : Nat) (s : CacheState)
    (h : SizeInv now s) : SizeInv now (evictLRU now s) := by
  rcases evictLRU_cases now s with he | ⟨k0, it, hlk, hexp, he⟩ | ⟨k0, it, hlk, hexp, he⟩
  · rw [he]; exact h
  · exact absurd hexp (by rw [h.live _ (lookupA_mem _ _ _ hlk)]; simp)
  · rw [he]
    refine ⟨?_, ?_, ?_⟩
    · exact nodup_keys_removeA _ _ h.nodupItems
    · intro p hp
      exact h.live p (removeA_subset _ _ p hp)
    · simp only
      rw [sizeSum_removeA s.items k0 it hlk h.nodupItems, h.sizeEq]

theorem sizeInv_ensureSpaceGo (now req : Nat) :
    ∀ fuel (s s' : CacheState), ensureSpaceGo now req fuel s = some s' →
      SizeInv now s → SizeInv now s' := by
  intro fuel
  induction fuel with
  | zero =>
      intro s s' h hinv
      unfold ensureSpaceGo at h
      split at h
      · exact absurd h (by simp)
      · cases h; exact hinv
  | succ fuel ih =>
      intro s s' h hinv
      unfold ensureSpaceGo at h
      split at h
      · dsimp only at h
        split at h
        · exact absurd h (by simp)
        · exact ih _ _ h (sizeInv_evictLRU now s hinv)
      · cases h; exact hinv

theorem sizeInv_cmSet_fresh (now : Nat) (s : CacheState) (k : String) (data : Bytes)
    (ct : String) (encs : List String) (e : CacheEntry) (s1 : CacheState)
    (hset : cmSet now s k data ct encs = .ok (e, s1))
    (hfresh : lookupA s.items k = none)
    (h : SizeInv now s) : SizeInv now s1 := by
  obtain ⟨s', hes, _, he, hs1⟩ := cmSet_ok_shape now s k data ct encs e s1 hset
  have hinv' : SizeInv now s' := sizeInv_ensureSpaceGo now data.length _ _ _ hes h
  have hfresh' : lookupA s'.items k = none := by
    rw [lookupA_eq_none_iff]
    intro hmem
    exact (lookupA_eq_none_iff s.items k).mp hfresh
      (ensureSpaceGo_keys_subset now data.length _ _ _ hes k hmem)
  rw [hs1]
  refine ⟨?_, ?_, ?_⟩
  · exact nodup_keys_setA _ _ _ hinv'.nodupItems
  · intro p hp
    rcases mem_setA_weak _ _ _ p hp with hq | hq
    · rw [hq]
      exact ncT_live now s.ttl
    · exact hinv'.live p hq
  · simp only [ncSet]
    rw [sizeSum_setA_fresh s'.items k _ hfresh', hinv'.sizeEq, he]

theorem sizeInv_deleteStep_fold (now : Nat) :
    ∀ (ks : List String) (acc : Nat) (s : CacheState), SizeInv now s →
      SizeInv now ((ks.foldl (deleteStep now) (acc, s)).2) := by
  intro ks
  induction ks with
  | nil => intro acc s h; exact h
  | cons k ks ih =>
      intro acc s h
      rw [List.foldl_cons]
      have : deleteStep now (acc, s) k =
          ((deleteStep now (acc, s) k).1, (cmDelete now s k).2) := rfl
      rw [this]
      exact ih _ _ (sizeInv_cmDelete now s k h)

theorem sizeInv_invalidateStep_fold (now : Nat) (test : String → Bool) :
    ∀ (ks : List String) (acc : Nat) (s : CacheState), SizeInv now s →
      SizeInv now ((ks.foldl (invalidateStep now test) (acc, s)).2) := by
  intro ks
  induction ks with
  | nil => intro acc s h; exact h
  | cons k ks ih =>
      intro acc s h
      rw [List.foldl_cons]
      by_cases ht : test k
      · have : invalidateStep now test (acc, s) k =
            ((invalidateStep now test (acc, s) k).1, (cmDelete now s k).2) := by
          simp [invalidateStep, deleteStep, ht]
        rw [this]
        exact ih _ _ (sizeInv_cmDelete now s k h)
      · have : invalidateStep now test (acc, s) k = (acc, s) := by
          simp [invalidateStep, ht]
        rw [this]
        exact ih _ _ h

theorem sizeInv_applyOp_put (now : Nat) (s : CacheState) (k : String) (data : Bytes)
    (ct : String) (hfresh : lookupA s.items k = none) (h : SizeInv now s) :
    SizeInv now (applyOp now s (.put k data ct)) := by
  simp only [applyOp]
  cases hset : cmSet now s k data ct [] with
  | ok r => exact sizeInv_cmSet_fresh now s k data ct [] r.1 r.2 (by rw [hset]) hfresh h
  | error e => exact h

theorem sizeInv_applyOp_nonput (now : Nat) (s : CacheState) (op : CacheOp)
    (hne : ∀ k data ct, op ≠ .put k data ct) (h : SizeInv now s) :
    SizeInv now (applyOp now s op) := by
  cases op with
  | put k data ct => exact absurd rfl (hne k data ct)
  | read k => exact sizeInv_cmGet now s k h
  | del k => exact sizeInv_cmDelete now s k h
  | invalidate rx =>
      cases rx with
      | none => exact h
      | some test =>
          simp only [applyOp, cmInvalidate]
          exact sizeInv_invalidateStep_fold now test _ 0 s h
  | purgeAll =>
      simp only [applyOp, cmPurge]
      exact sizeInv_deleteStep_fold now _ 0 s h

/-- A run in which no put targets a currently live key. -/
inductive NoReplace (now : Nat) : CacheState → List CacheOp → Prop where
  | nil (s : CacheState) : NoReplace now s []
  | put (s : CacheState) (k : String) (data : Bytes) (ct : String) (ops : List CacheOp) :
      lookupA s.items k = none →
      NoReplace now (applyOp now s (.put k data ct)) ops →
      NoReplace now s (.put k data ct :: ops)
  | skip (s : CacheState) (op : CacheOp) (ops : List CacheOp) :
      (∀ k data ct, op ≠ .put k data ct) →
      NoReplace now (applyOp now s op) ops →
      NoReplace now s (op :: ops)

/-- C10 (amended): along every operation sequence from the empty store in
which no put replaces an already-live key, stats().currentSize equals the
sum of size over the live entries at every point between operations.
(A replacing put adds the new size without reclaiming the replaced
entry's, breaking this identity — see the counterexample.) -/
theorem c10_size_accounting_amended (now mx ttl : Nat) (ops : List CacheOp)
    (h : NoReplace now (emptyCache mx ttl) ops) :
    (getStats (runOps now (emptyCache mx ttl) ops)).currentSize =
      sizeSum (runOps now (emptyCache mx ttl) ops).items := by
  have hgen : ∀ (s : CacheState) (ops : List CacheOp), NoReplace now s ops →
      SizeInv now s → SizeInv now (runOps now s ops) := by
    intro s ops hnr
    induction hnr with
    | nil s => exact fun hinv => hinv
    | put s k data ct ops hfresh _ ih =>
        exact fun hinv => ih (sizeInv_applyOp_put now s k data ct hfresh hinv)
    | skip s op ops hne _ ih =>
        exact fun hinv => ih (sizeInv_applyOp_nonput now s op hne hinv)
  exact (hgen _ _ h ⟨by simp [emptyCache], by simp [emptyCache], by simp [emptyCache, sizeSum]⟩).sizeEq

/-- Counterexample to C10 as stated: putting 10 bytes under "k" and then
20 bytes under the same key leaves currentSize = 30 while the only live
entry holds 20 bytes — the replacing put never reclaimed the replaced
entry's size. -/
theorem c10_size_accounting_counterexample :
    (getStats (runOps 0 (emptyCache 300 60)
      [.put "k" (List.replicate 10 1) "t", .put "k" (List.replicate 20 2) "t"])).currentSize
      = 30 ∧
    sizeSum (runOps 0 (emptyCache 300 60)
      [.put "k" (List.replicate 10 1) "t", .put "k" (List.replicate 20 2) "t"]).items
      = 20 := by
  constructor
  · decide
  · decide

/-- A concrete replacement-free run: two puts of distinct keys, a read and
a delete. -/
def c10ops : List CacheOp :=
  [.put "a" [1, 2] "t", .put "b" [3] "t", .read "a", .del "b"]

/-- Witness for c10_size_accounting_amended at the concrete run c10ops. -/
theorem c10_size_accounting_witness :
    (getStats (runOps 0 (emptyCache 300 60) c10ops)).currentSize =
      sizeSum (runOps 0 (emptyCache 300 60) c10ops).items := by
  refine c10_size_accounting_amended 0 300 60 c10ops ?_
  refine NoReplace.put _ "a" [1, 2] "t" _ (by decide) ?_
  refine NoReplace.put _ "b" [3] "t" _ (by decide) ?_
  refine NoReplace.skip _ _ _ (fun k data ct h => by cases h) ?_
  refine NoReplace.skip _ _ _ (fun k data ct h => by cases h) ?_
  exact NoReplace.nil _

/-! ### C8 — persistence round trip and recovery verification -/

theorem setA_of_lookup_none {β : Type} (l : List (String × β)) (k : String) (v : β)
    (h : lookupA l k = none) : setA l k v = l ++ [(k, v)] := by
  induction l with
  | nil => simp [setA]
  | cons p rest ih =>
      obtain ⟨k', v'⟩ := p
      by_cases hk : k' = k
      · simp [lookupA, hk] at h
      · simp only [lookupA, if_neg hk] at h
        simp [setA, hk, ih h]

/-- The collection loop of saveMetadata over a store whose items are all
live: nothing is swept, and each key contributes the entry NodeCache holds
for it. -/
theorem saveFold_live (now : Nat) (items0 : List (String × NCItem))
    (hlive : ∀ p ∈ items0, ncExpired now p.2.t = false) :
    ∀ (ks : List String) (acc : List CacheEntry),
      ks.foldl (saveStep now) (acc, items0) =
        (acc ++ ks.filterMap (fun k => (lookupA items0 k).map (fun it => it.entry)),
         items0) := by
  intro ks
  induction ks with
  | nil => intro acc; simp
  | cons k ks ih =>
      intro acc
      rw [List.foldl_cons]
      cases hlk : lookupA items0 k with
      | none =>
          have hstep : saveStep now (acc, items0) k = (acc, items0) := by
            simp [saveStep, ncGet, hlk]
          rw [hstep, ih acc]
          simp [hlk]
      | some it =>
          have hl : ncExpired now it.t = false := hlive _ (lookupA_mem _ _ _ hlk)
          have hstep : saveStep now (acc, items0) k = (acc ++ [it.entry], items0) := by
            simp [saveStep, ncGet, hlk, hl]
          rw [hstep, ih (acc ++ [it.entry])]
          simp [hlk]

/-- Looking every key of a duplicate-free association list back up yields
exactly its own values. -/
theorem filterMap_lookup_self (l : List (String × NCItem))
    (hnd : (l.map Prod.fst).Nodup) :
    (l.map Prod.fst).filterMap
        (fun k => (lookupA l k).map (fun it => it.entry)) =
      l.map (fun p => p.2.entry) := by
  induction l with
  | nil => simp
  | cons p rest ih =>
      obtain ⟨k, v⟩ := p
      simp only [List.map_cons, List.nodup_cons] at hnd
      rw [List.map_cons, List.filterMap_cons]
      have hself : lookupA ((k, v) :: rest) k = some v := by simp [lookupA]
      rw [hself]
      simp only [Option.map_some']
      congr 1
      have hcongr : (rest.map Prod.fst).filterMap
          (fun k2 => (lookupA ((k, v) :: rest) k2).map (fun it => it.entry)) =
          (rest.map Prod.fst).filterMap
          (fun k2 => (lookupA rest k2).map (fun it => it.entry)) := by
        apply List.filterMap_congr
        intro k2 hk2
        have hne : k ≠ k2 := fun he => hnd.1 (he ▸ hk2)
        simp [lookupA, hne]
      rw [hcongr, ih hnd.2]

/-- saveMetadata on an all-live store: the persisted index lists exactly
the live entries in order, with the raw access-count table, and the store
is untouched. -/
theorem saveMetadata_live (now : Nat) (s : CacheState)
    (hnd : (s.items.map Prod.fst).Nodup)
    (hlive : ∀ p ∈ s.items, ncExpired now p.2.t = false) :
    saveMetadata now s =
      ({ entries := s.items.map (fun p => p.2.entry), accessLog := s.accessLog }, s) := by
  unfold saveMetadata
  rw [saveFold_live now s.items hlive (s.items.map Prod.fst) []]
  rw [List.nil_append, filterMap_lookup_self s.items hnd]

/-- The restore loop over entries that all verify against the directory:
every entry is re-registered with a fresh stamp and re-accounted; the
directory, access log and configuration are untouched. -/
theorem restoreFold_good (now : Nat) :
    ∀ (es : List CacheEntry) (acc : CacheState),
      (∀ e ∈ es, ∃ b, lookupA acc.disk e.path = some b ∧ b.length = e.size ∧
        now < e.expiresAt) →
      es.foldl (restoreEntry now) acc =
        { acc with
          items := es.foldl (fun its e => setA its e.key ⟨e, ncT now acc.ttl⟩) acc.items,
          currentSize := acc.currentSize + ((es.map (fun e => (e.size : Int))).sum) } := by
  intro es
  induction es with
  | nil => intro acc h; simp
  | cons e es ih =>
      intro acc h
      obtain ⟨b, hb, hlen, hexp⟩ := h e (List.mem_cons_self _ _)
      have hre : restoreEntry now acc e =
          { acc with items := ncSet now acc.ttl acc.items e.key e,
                     currentSize := acc.currentSize + (e.size : Int) } := by
        simp [restoreEntry, hb, hlen, hexp]
      have hrest : ∀ e2 ∈ es, ∃ b2,
          lookupA (restoreEntry now acc e).disk e2.path = some b2 ∧
          b2.length = e2.size ∧ now < e2.expiresAt := by
        intro e2 he2
        rw [hre]
        exact h e2 (List.mem_cons_of_mem _ he2)
      rw [List.foldl_cons, ih (restoreEntry now acc e) hrest, hre]
      dsimp only
      simp only [ncSet, List.foldl_cons, List.map_cons, List.sum_cons]
      congr 1
      ring

/-- Folding fresh, duplicate-free entries into an item list appends them
in order. -/
theorem foldl_setA_fresh (now ttl : Nat) :
    ∀ (es : List CacheEntry) (its : List (String × NCItem)),
      (es.map (fun e => e.key)).Nodup →
      (∀ e ∈ es, e.key ∉ its.map Prod.fst) →
      es.foldl (fun its2 e => setA its2 e.key ⟨e, ncT now ttl⟩) its =
        its ++ es.map (fun e => (e.key, (⟨e, ncT now ttl⟩ : NCItem))) := by
  intro es
  induction es with
  | nil => intro its _ _; simp
  | cons e es ih =>
      intro its hnd hfresh
      simp only [List.map_cons, List.nodup_cons] at hnd
      have hfresh2 : ∀ e2 ∈ es,
          e2.key ∉ (its ++ [(e.key, (⟨e, ncT now ttl⟩ : NCItem))]).map Prod.fst := by
        intro e2 he2
        simp only [List.map_append, List.mem_append]
        push_neg
        constructor
        · exact hfresh e2 (List.mem_cons_of_mem _ he2)
        · simp only [List.map_cons, List.map_nil, List.mem_singleton]
          intro hc
          exact hnd.1 (hc ▸ (List.mem_map_of_mem (fun e => e.key) he2))
      rw [List.foldl_cons,
        setA_of_lookup_none its e.key (⟨e, ncT now ttl⟩ : NCItem)
          ((lookupA_eq_none_iff its e.key).mpr (hfresh e (List.mem_cons_self _ _)))]
      rw [ih (its ++ [(e.key, (⟨e, ncT now ttl⟩ : NCItem))]) hnd.2 hfresh2]
      simp

/-- C8: persisting the index of an all-live, duplicate-free, disk-backed
store and reloading it at the same instant (no intervening mutation, no
entry expiring in between) restores exactly the same live-entry list —
identical keys and identical entry records, hence identical sizes and
content types — while the directory and access log are unchanged.
Recovery verification drops a recorded entry whose backing file is
missing, and deletes the file and drops the entry on a size mismatch or a
passed expiresAt — never keeping an unverified entry. -/
theorem c8_recovery_idempotence (now : Nat) (s : CacheState)
    (hnd : (s.items.map Prod.fst).Nodup)
    (hpath : ∀ p ∈ s.items, p.2.entry.path = p.1 ∧ p.2.entry.key = p.1)
    (hlive : ∀ p ∈ s.items, ncExpired now p.2.t = false)
    (hdisk : ∀ p ∈ s.items,
      (lookupA s.disk p.1).map (fun b => b.length) = some p.2.entry.size)
    (hexp : ∀ p ∈ s.items, now < p.2.entry.expiresAt) :
    (saveMetadata now s).1.entries = s.items.map (fun p => p.2.entry) ∧
    (saveMetadata now s).2 = s ∧
    (loadPersistedCache now (saveMetadata now s).1 s.disk s.maxSize s.ttl).items =
      s.items.map (fun p => (p.1, (⟨p.2.entry, ncT now s.ttl⟩ : NCItem))) ∧
    (loadPersistedCache now (saveMetadata now s).1 s.disk s.maxSize s.ttl).disk = s.disk ∧
    (loadPersistedCache now (saveMetadata now s).1 s.disk s.maxSize s.ttl).accessLog =
      s.accessLog ∧
    (∀ (acc : CacheState) (e : CacheEntry), lookupA acc.disk e.path = none →
      restoreEntry now acc e = acc) ∧
    (∀ (acc : CacheState) (e : CacheEntry) (b : Bytes),
      lookupA acc.disk e.path = some b → b.length ≠ e.size →
      restoreEntry now acc e = { acc with disk := removeA acc.disk e.path }) ∧
    (∀ (acc : CacheState) (e : CacheEntry) (b : Bytes),
      lookupA acc.disk e.path = some b → b.length = e.size → e.expiresAt ≤ now →
      restoreEntry now acc e = { acc with disk := removeA acc.disk e.path }) := by
  have hsave := saveMetadata_live now s hnd hlive
  have hgood : ∀ e ∈ (saveMetadata now s).1.entries, ∃ b,
      lookupA s.disk e.path = some b ∧ b.length = e.size ∧ now < e.expiresAt := by
    rw [hsave]
    intro e he
    obtain ⟨p, hp, hpe⟩ := List.mem_map.mp he
    obtain ⟨b, hb, hlen⟩ := Option.map_eq_some'.mp (hdisk p hp)
    refine ⟨b, ?_, ?_, ?_⟩
    · rw [← hpe, (hpath p hp).1, hb]
    · rw [← hpe]; exact hlen
    · rw [← hpe]; exact hexp p hp
  have hload := restoreFold_good now (saveMetadata now s).1.entries
    { items := [], accessLog := (saveMetadata now s).1.accessLog, currentSize := 0,
      disk := s.disk, maxSize := s.maxSize, ttl := s.ttl } hgood
  have hkeysnd : ((saveMetadata now s).1.entries.map (fun e => e.key)).Nodup := by
    rw [hsave]
    dsimp only
    rw [List.map_map]
    have : s.items.map ((fun e => e.key) ∘ (fun p => p.2.entry)) = s.items.map Prod.fst := by
      apply List.map_congr_left
      intro p hp
      exact (hpath p hp).2
    rw [this]
    exact hnd
  have hfold := foldl_setA_fresh now s.ttl (saveMetadata now s).1.entries [] hkeysnd
    (by intro e _; simp)
  refine ⟨by rw [hsave], by rw [hsave], ?_, ?_, ?_, ?_, ?_, ?_⟩
  · show (loadPersistedCache now (saveMetadata now s).1 s.disk s.maxSize s.ttl).items = _
    unfold loadPersistedCache
    rw [hload]
    dsimp only
    rw [hfold, List.nil_append, hsave]
    dsimp only
    rw [List.map_map]
    apply List.map_congr_left
    intro p hp
    simp only [Function.comp_apply]
    rw [(hpath p hp).2]
  · unfold loadPersistedCache
    rw [hload]
  · unfold loadPersistedCache
    rw [hload]
    dsimp only
    rw [hsave]
  · intro acc e he
    simp [restoreEntry, he]
  · intro acc e b hb hlen
    simp [restoreEntry, hb, hlen]
  · intro acc e b hb hlen hexp2
    have : ¬ (e.expiresAt > now) := by omega
    simp [restoreEntry, hb, hlen, this]

/-- Witness for c8_recovery_idempotence: saving and reloading the concrete
two-entry store restores exactly its live-entry list. -/
theorem c8_recovery_witness :
    (loadPersistedCache 0 (saveMetadata 0 c4ex).1 c4ex.disk c4ex.maxSize c4ex.ttl).items =
      [("bab", ⟨{ entryEx with key := "bab", path := "bab" }, ncT 0 10⟩),
       ("zz", ⟨{ entryEx with key := "zz", path := "zz" }, ncT 0 10⟩)] ∧
    (loadPersistedCache 0 (saveMetadata 0 c4ex).1 c4ex.disk c4ex.maxSize c4ex.ttl).disk =
      c4ex.disk := by
  obtain ⟨_, _, h3, h4, _⟩ := c8_recovery_idempotence 0 c4ex (by decide) (by decide)
    (by decide) (by decide) (by decide)
  exact ⟨h3.trans (by decide), h4⟩

/-! ### C5 — re-transform avoidance -/

/-- Resolution context for the C5 scenarios: transforms enabled with
default limits, an enabled origin serving a 3-byte PNG for every path,
a transform engine producing a cacheable 4-byte webp, and a switchable
remote tier. -/
def c5ctx (b : Bool) : CDNCtx :=
  { redisEnabled := b
    itConfig := { enabled := true }
    originCfg := cfgDefault
    origin := fun _ _ => ⟨200, [1, 2, 3], some "image/png"⟩
    transformFn := fun _ _ => .ok ⟨[9, 9, 9, 9], "image/webp", 5, 5, 4⟩
    baseUrl := "http://cdn" }

/-- The empty server state of the C5 scenarios (capacity 100, ttl 60 s). -/
def c5st0 : ServerState := ⟨emptyCache 100 60, []⟩

/-- The transform request query of the C5 scenarios: width 100. -/
def c5q : TQuery := { w := some "100" }

/-- The same context except that the transform output (20 bytes) exceeds
the 10 % single-entry cap of the 100-byte store, so its write-back throws. -/
def c5badCtx : CDNCtx :=
  { redisEnabled := false
    itConfig := { enabled := true }
    originCfg := cfgDefault
    origin := fun _ _ => ⟨200, [1, 2, 3], some "image/png"⟩
    transformFn := fun _ _ => .ok ⟨List.replicate 20 9, "image/webp", 5, 5, 20⟩
    baseUrl := "http://cdn" }

/-- The two state-independent ways the transform/write-back pair of the
cache-hit branch fails: the engine itself throws, or its output exceeds the
10 % single-entry cap so CacheManager.set throws. -/
def transformWriteFails (f : Bytes → ImageTransformOptions → Except Unit TransformedImageResult)
    (buf : Bytes) (o : ImageTransformOptions) (maxSize : Nat) : Bool :=
  match f buf o with
  | .error _ => true
  | .ok tr => decide (10 * tr.buffer.length > maxSize)

/-- Looking up the mutated key after mutateEntry rewrites the stored
entry in place. -/
theorem lookupA_mutateEntry (its : List (String × NCItem)) (k : String)
    (f : CacheEntry → CacheEntry) :
    lookupA (mutateEntry its k f) k =
      (lookupA its k).map (fun it => ⟨f it.entry, it.t⟩) := by
  induction its with
  | nil => rfl
  | cons p rest ih =>
      obtain ⟨k2, it⟩ := p
      by_cases h : k2 = k
      · have hm : mutateEntry ((k2, it) :: rest) k f
            = (k2, (⟨f it.entry, it.t⟩ : NCItem)) :: mutateEntry rest k f := by
          unfold mutateEntry
          simp [h]
        have hl : lookupA ((k2, (⟨f it.entry, it.t⟩ : NCItem)) :: mutateEntry rest k f) k
            = some ⟨f it.entry, it.t⟩ := by
          simp [lookupA, h]
        have hr : lookupA ((k2, it) :: rest) k = some it := by
          simp [lookupA, h]
        rw [hm, hl, hr]
        rfl
      · have hm : mutateEntry ((k2, it) :: rest) k f = (k2, it) :: mutateEntry rest k f := by
          unfold mutateEntry
          simp [h]
        have hl : lookupA ((k2, it) :: mutateEntry rest k f) k
            = lookupA (mutateEntry rest k f) k := by
          simp [lookupA, h]
        have hr : lookupA ((k2, it) :: rest) k = lookupA rest k := by
          simp [lookupA, h]
        rw [hm, hl, hr, ih]

/-- cmGet only rewrites the item table and the access log: the disk, the
capacity, the TTL and the size counter come through unchanged. -/
theorem cmGet_snd_fields (now : Nat) (s : CacheState) (k : String) :
    (cmGet now s k).2.disk = s.disk ∧ (cmGet now s k).2.maxSize = s.maxSize ∧
    (cmGet now s k).2.ttl = s.ttl ∧ (cmGet now s k).2.currentSize = s.currentSize := by
  unfold cmGet ncGet
  rcases h : lookupA s.items k with _ | it
  · simp
  · by_cases he : ncExpired now it.t = true <;> simp [he]

/-- Inversion of a cmGet hit: the underlying item was present and live, the
returned entry is the stored one with the bumped count, and the resulting
state re-inserts it. -/
theorem cmGet_fst_some (now : Nat) (s : CacheState) (k : String) (e : CacheEntry)
    (h : (cmGet now s k).1 = some e) :
    ∃ it, lookupA s.items k = some it ∧ ncExpired now it.t = false ∧
      e = { it.entry with accessCount := (lookupA s.accessLog k).getD 0 + 1 } ∧
      cmGet now s k = (some e,
        ⟨ncSet now s.ttl s.items k e,
         setA s.accessLog k ((lookupA s.accessLog k).getD 0 + 1),
         s.currentSize, s.disk, s.maxSize, s.ttl⟩) := by
  rcases hit : lookupA s.items k with _ | it
  · exfalso
    unfold cmGet ncGet at h
    rw [hit] at h
    simp at h
  · by_cases he : ncExpired now it.t = true
    · exfalso
      unfold cmGet ncGet at h
      rw [hit] at h
      simp [he] at h
    · have hb : ncExpired now it.t = false := by
        revert he
        cases ncExpired now it.t <;> simp
      have hshape := cmGet_some_shape now s k it hit hb
      rw [hshape] at h
      dsimp only at h
      simp only [Option.some.injEq] at h
      refine ⟨it, rfl, hb, h.symm, ?_⟩
      rw [hshape, h]

/-- The entry-flagging mutation the handler applies to a freshly written
transform output (`transformedEntry.isTransformed = true; ... originalKey`). -/
def flagEntry (key : String) (e : CacheEntry) : CacheEntry :=
  { e with isTransformed := true, originalKey := some key }

/-- The server state the handler leaves after materializing a transform
output: the written store with the derived entry flagged in place, and the
mirrored remote tier when that tier is active. -/
def installTransformed (key tk : String) (e : CacheEntry) (s2 : CacheState)
    (st : ServerState) (redisOn : Bool) : ServerState :=
  ⟨{ s2 with items := mutateEntry s2.items tk (flagEntry key) },
   if redisOn then setA st.redis tk (flagEntry key e) else st.redis⟩

/-- Inversion: a resolution that answered X-Cache TRANSFORMED went through a
successful CacheManager.set of the served bytes and content type under the
derived key, served that entry's ETag, ran the engine exactly once, and left
exactly the installed state. -/
theorem cdnHandler_transformed_inv (ctx : CDNCtx) (now : Nat) (st : ServerState)
    (key : String) (query : TQuery) (o : ImageTransformOptions)
    (ct : String) (bd : Bytes) (tg : String)
    (h1 : parseTransformOptions ctx.itConfig query = some o)
    (h2 : isImageFile key = true)
    (h3 : (cdnHandler ctx now st key query).1 = CDNResponse.served "TRANSFORMED" ct bd tg) :
    ∃ s1 e s2,
      cmSet now s1 (generateTransformKey key o) bd ct [] = Except.ok (e, s2) ∧
      tg = e.etag ∧
      cdnHandler ctx now st key query =
        (CDNResponse.served "TRANSFORMED" ct bd tg,
         installTransformed key (generateTransformKey key o) e s2 st ctx.redisEnabled, 1) := by
  simp [cdnHandler, h1, h2] at h3
  cases hRe : ctx.redisEnabled with
  | true =>
      simp only [hRe, eq_self_iff_true, if_true] at h3
      rcases hRh : lookupA st.redis (generateTransformKey key o) with _ | rc
      · simp only [hRh] at h3
        rcases hG : cmGet now st.cache (generateTransformKey key o) with ⟨g1, gs⟩
        rw [hG] at h3
        try dsimp only at h3
        cases g1 with
        | some cached =>
            cases hTf : cached.isTransformed with
            | true =>
                simp only [hTf, Bool.true_eq_false, if_false] at h3
                rcases hD : lookupA gs.disk cached.path with _ | body
                · simp [hD] at h3
                · simp [hD] at h3
            | false =>
                simp only [hTf, eq_self_iff_true, if_true] at h3
                rcases hD : lookupA gs.disk cached.path with _ | buf
                · simp [hD] at h3
                · rcases hT : ctx.transformFn buf o with u | tr
                  · simp [hD, hT] at h3
                  · rcases hS : cmSet now gs (generateTransformKey key o) tr.buffer
                        tr.contentType [] with se | r
                    · simp [hD, hT, hS] at h3
                    · obtain ⟨e, s2⟩ := r
                      simp only [hD, hT, hS] at h3
                      try dsimp only at h3
                      injection h3 with hx hct hbd htg
                      refine ⟨gs, e, s2, ?_, htg.symm, ?_⟩
                      · rw [← hct, ← hbd]
                        exact hS
                      · have hE : cdnHandler ctx now st key query =
                            (CDNResponse.served "TRANSFORMED" tr.contentType tr.buffer e.etag,
                             installTransformed key (generateTransformKey key o) e s2 st
                               ctx.redisEnabled, 1) := by
                          simp only [cdnHandler, h1, h2, hRe, hRh, hG, hTf, hD, hT, hS,
                            installTransformed, flagEntry, if_true, Option.getD_some,
                            true_and, eq_self_iff_true]
                          rfl
                        rw [hE, hct, hbd, htg, hRe]
        | none =>
            cases hOe : ctx.originCfg.enabled with
            | false => simp [hOe] at h3
            | true =>
                simp only [hOe, eq_self_iff_true, if_true] at h3
                rcases hP : pullFromOrigin ctx.originCfg ctx.origin now gs key
                    ctx.baseUrl with pe | pr
                · simp [hP] at h3
                · obtain ⟨pres, ps⟩ := pr
                  simp only [hP] at h3
                  try dsimp only at h3
                  cases hSc : pres.success with
                  | false => simp [hSc] at h3
                  | true =>
                      simp only [hSc, eq_self_iff_true, if_true] at h3
                      rcases hG2 : cmGet now ps pres.key with ⟨g21, g2s⟩
                      rw [hG2] at h3
                      try dsimp only at h3
                      cases g21 with
                      | none => simp at h3
                      | some oe =>
                          rcases hD : lookupA g2s.disk oe.path with _ | buf
                          · simp [hD] at h3
                          · rcases hT : ctx.transformFn buf o with u | tr
                            · simp [hD, hT] at h3
                            · rcases hS : cmSet now g2s (generateTransformKey key o)
                                  tr.buffer tr.contentType [] with se | r
                              · simp [hD, hT, hS] at h3
                              · obtain ⟨e, s2⟩ := r
                                simp only [hD, hT, hS] at h3
                                try dsimp only at h3
                                injection h3 with hx hct hbd htg
                                refine ⟨g2s, e, s2, ?_, htg.symm, ?_⟩
                                · rw [← hct, ← hbd]
                                  exact hS
                                · have hE : cdnHandler ctx now st key query =
                                      (CDNResponse.served "TRANSFORMED" tr.contentType
                                        tr.buffer e.etag,
                                       installTransformed key (generateTransformKey key o)
                                         e s2 st ctx.redisEnabled, 1) := by
                                    simp only [cdnHandler, h1, h2, hRe, hRh, hG, hOe, hP,
                                      hSc, hG2, hD, hT, hS, installTransformed, flagEntry,
                                      if_true, Option.getD_some, true_and, eq_self_iff_true]
                                    rfl
                                  rw [hE, hct, hbd, htg, hRe]
      · simp only [hRh] at h3
        try dsimp only at h3
        cases hTf : rc.isTransformed with
        | true =>
            simp only [hTf, Bool.true_eq_false, if_false] at h3
            rcases hD : lookupA st.cache.disk rc.path with _ | body
            · simp [hD] at h3
            · simp [hD] at h3
        | false =>
            simp only [hTf, eq_self_iff_true, if_true] at h3
            rcases hD : lookupA st.cache.disk rc.path with _ | buf
            · simp [hD] at h3
            · rcases hT : ctx.transformFn buf o with u | tr
              · simp [hD, hT] at h3
              · rcases hS : cmSet now st.cache (generateTransformKey key o) tr.buffer
                    tr.contentType [] with se | r
                · simp [hD, hT, hS] at h3
                · obtain ⟨e, s2⟩ := r
                  simp only [hD, hT, hS] at h3
                  try dsimp only at h3
                  injection h3 with hx hct hbd htg
                  refine ⟨st.cache, e, s2, ?_, htg.symm, ?_⟩
                  · rw [← hct, ← hbd]
                    exact hS
                  · have hE : cdnHandler ctx now st key query =
                        (CDNResponse.served "TRANSFORMED" tr.contentType tr.buffer e.etag,
                         installTransformed key (generateTransformKey key o) e s2 st
                           ctx.redisEnabled, 1) := by
                      simp only [cdnHandler, h1, h2, hRe, hRh, hTf, hD, hT, hS,
                        installTransformed, flagEntry, if_true, Option.getD_some,
                        true_and, eq_self_iff_true]
                      rfl
                    rw [hE, hct, hbd, htg, hRe]
  | false =>
      simp only [hRe, Bool.false_eq_true, if_false] at h3
      rcases hG : cmGet now st.cache (generateTransformKey key o) with ⟨g1, gs⟩
      rw [hG] at h3
      try dsimp only at h3
      cases g1 with
      | some cached =>
          cases hTf : cached.isTransformed with
          | true =>
              simp only [hTf, Bool.true_eq_false, if_false] at h3
              rcases hD : lookupA gs.disk cached.path with _ | body
              · simp [hD] at h3
              · simp [hD] at h3
          | false =>
              simp only [hTf, eq_self_iff_true, if_true] at h3
              rcases hD : lookupA gs.disk cached.path with _ | buf
              · simp [hD] at h3
              · rcases hT : ctx.transformFn buf o with u | tr
                · simp [hD, hT] at h3
                · rcases hS : cmSet now gs (generateTransformKey key o) tr.buffer
                      tr.contentType [] with se | r
                  · simp [hD, hT, hS] at h3
                  · obtain ⟨e, s2⟩ := r
                    simp only [hD, hT, hS] at h3
                    try dsimp only at h3
                    injection h3 with hx hct hbd htg
                    refine ⟨gs, e, s2, ?_, htg.symm, ?_⟩
                    · rw [← hct, ← hbd]
                      exact hS
                    · have hE : cdnHandler ctx now st key query =
                          (CDNResponse.served "TRANSFORMED" tr.contentType tr.buffer e.etag,
                           installTransformed key (generateTransformKey key o) e s2 st
                             ctx.redisEnabled, 1) := by
                        simp only [cdnHandler, h1, h2, hRe, hG, hTf, hD, hT, hS,
                          installTransformed, flagEntry, if_true, Option.getD_some,
                          true_and, eq_self_iff_true, Bool.false_eq_true, if_false]
                        rfl
                      rw [hE, hct, hbd, htg, hRe]
      | none =>
          cases hOe : ctx.originCfg.enabled with
          | false => simp [hOe] at h3
          | true =>
              simp only [hOe, eq_self_iff_true, if_true] at h3
              rcases hP : pullFromOrigin ctx.originCfg ctx.origin now gs key
                  ctx.baseUrl with pe | pr
              · simp [hP] at h3
              · obtain ⟨pres, ps⟩ := pr
                simp only [hP] at h3
                try dsimp only at h3
                cases hSc : pres.success with
                | false => simp [hSc] at h3
                | true =>
                    simp only [hSc, eq_self_iff_true, if_true] at h3
                    rcases hG2 : cmGet now ps pres.key with ⟨g21, g2s⟩
                    rw [hG2] at h3
                    try dsimp only at h3
                    cases g21 with
                    | none => simp at h3
                    | some oe =>
                        rcases hD : lookupA g2s.disk oe.path with _ | buf
                        · simp [hD] at h3
                        · rcases hT : ctx.transformFn buf o with u | tr
                          · simp [hD, hT] at h3
                          · rcases hS : cmSet now g2s (generateTransformKey key o)
                                tr.buffer tr.contentType [] with se | r
                            · simp [hD, hT, hS] at h3
                            · obtain ⟨e, s2⟩ := r
                              simp only [hD, hT, hS] at h3
                              try dsimp only at h3
                              injection h3 with hx hct hbd htg
                              refine ⟨g2s, e, s2, ?_, htg.symm, ?_⟩
                              · rw [← hct, ← hbd]
                                exact hS
                              · have hE : cdnHandler ctx now st key query =
                                    (CDNResponse.served "TRANSFORMED" tr.contentType
                                      tr.buffer e.etag,
                                     installTransformed key (generateTransformKey key o)
                                       e s2 st ctx.redisEnabled, 1) := by
                                  simp only [cdnHandler, h1, h2, hRe, hG, hOe, hP, hSc,
                                    hG2, hD, hT, hS, installTransformed, flagEntry,
                                    if_true, Option.getD_some, true_and, eq_self_iff_true,
                                    Bool.false_eq_true, if_false]
                                  rfl
                                rw [hE, hct, hbd, htg, hRe]

/-- Resolution through the cache-hit transform branch when the derived-key
entry is present but unflagged and the transform or its write-back fails:
the error escapes the handler (500), the engine ran once, and nothing is
materialized (only the read's own bookkeeping happened). -/
theorem cdnHandler_hitfail (ctx : CDNCtx) (now : Nat) (st : ServerState)
    (key : String) (query : TQuery) (o : ImageTransformOptions)
    (cached : CacheEntry) (buf : Bytes)
    (h1 : parseTransformOptions ctx.itConfig query = some o)
    (h2 : isImageFile key = true)
    (hce : (if ctx.redisEnabled then lookupA st.redis (generateTransformKey key o)
      else none) = none)
    (hcg : (cmGet now st.cache (generateTransformKey key o)).1 = some cached)
    (hcf : cached.isTransformed = false)
    (hcb : lookupA st.cache.disk cached.path = some buf)
    (hfl : transformWriteFails ctx.transformFn buf o st.cache.maxSize = true) :
    cdnHandler ctx now st key query =
      (CDNResponse.serverError,
       ⟨(cmGet now st.cache (generateTransformKey key o)).2, st.redis⟩, 1) := by
  rcases hG : cmGet now st.cache (generateTransformKey key o) with ⟨g1, gs⟩
  rw [hG] at hcg
  dsimp only at hcg
  subst hcg
  have hpres := cmGet_snd_fields now st.cache (generateTransformKey key o)
  rw [hG] at hpres
  dsimp only at hpres
  obtain ⟨hdisk, hmax, -, -⟩ := hpres
  rcases hT : ctx.transformFn buf o with u | tr
  · simp only [cdnHandler, h1, h2, if_true, Option.getD_some, true_and, hce, hG, hcf,
      eq_self_iff_true, hdisk, hcb, hT]
  · have hover : 10 * tr.buffer.length > st.cache.maxSize := by
      unfold transformWriteFails at hfl
      rw [hT] at hfl
      exact of_decide_eq_true hfl
    have hSet : cmSet now gs (generateTransformKey key o) tr.buffer tr.contentType []
        = Except.error SetError.oversized := by
      unfold cmSet
      rw [if_pos]
      rw [hmax]
      exact hover
    simp only [cdnHandler, h1, h2, if_true, Option.getD_some, true_and, hce, hG, hcf,
      eq_self_iff_true, hdisk, hcb, hT, hSet]

/-- Serving a flagged derived entry found in the remote tier: no transform,
X-Cache TRANSFORMED_HIT, state unchanged. -/
theorem cdnHandler_redis_hit (ctx : CDNCtx) (now : Nat) (st : ServerState)
    (key : String) (query : TQuery) (o : ImageTransformOptions)
    (fe : CacheEntry) (body : Bytes)
    (h1 : parseTransformOptions ctx.itConfig query = some o)
    (h2 : isImageFile key = true)
    (hRe : ctx.redisEnabled = true)
    (hrl : lookupA st.redis (generateTransformKey key o) = some fe)
    (hfT : fe.isTransformed = true)
    (hdk : lookupA st.cache.disk fe.path = some body) :
    cdnHandler ctx now st key query =
      (CDNResponse.served "TRANSFORMED_HIT" fe.contentType body fe.etag,
       ⟨st.cache, st.redis⟩, 0) := by
  simp only [cdnHandler, h1, h2, if_true, Option.getD_some, true_and, hRe,
    eq_self_iff_true, hrl, hfT, Bool.true_eq_false, if_false, hdk]

/-- Serving a flagged derived entry found in the local store: no transform,
X-Cache TRANSFORMED_HIT, only the read's bookkeeping in the state. -/
theorem cdnHandler_local_hit (ctx : CDNCtx) (now : Nat) (st : ServerState)
    (key : String) (query : TQuery) (o : ImageTransformOptions)
    (fe : CacheEntry) (body : Bytes)
    (h1 : parseTransformOptions ctx.itConfig query = some o)
    (h2 : isImageFile key = true)
    (hce : (if ctx.redisEnabled then lookupA st.redis (generateTransformKey key o)
      else none) = none)
    (hg : (cmGet now st.cache (generateTransformKey key o)).1 = some fe)
    (hfT : fe.isTransformed = true)
    (hdk : lookupA (cmGet now st.cache (generateTransformKey key o)).2.disk fe.path
      = some body) :
    cdnHandler ctx now st key query =
      (CDNResponse.served "TRANSFORMED_HIT" fe.contentType body fe.etag,
       ⟨(cmGet now st.cache (generateTransformKey key o)).2, st.redis⟩, 0) := by
  rcases hG : cmGet now st.cache (generateTransformKey key o) with ⟨g1, gs⟩
  rw [hG] at hg hdk
  dsimp only at hg hdk
  subst hg
  simp only [cdnHandler, h1, h2, if_true, Option.getD_some, true_and, hce, hG, hfT,
    Bool.true_eq_false, if_false, hdk]

/-- cdnHandler_hitfail restated over the stored NodeCache item: a live but
unflagged derived-key item whose transform/write-back fails gives a 500 with
one engine run and no materialization. -/
theorem cdnHandler_unflagged_fail (ctx : CDNCtx) (now : Nat) (st : ServerState)
    (key : String) (query : TQuery) (o : ImageTransformOptions)
    (it : NCItem) (buf : Bytes)
    (h1 : parseTransformOptions ctx.itConfig query = some o)
    (h2 : isImageFile key = true)
    (hce : (if ctx.redisEnabled then lookupA st.redis (generateTransformKey key o)
      else none) = none)
    (hlook : lookupA st.cache.items (generateTransformKey key o) = some it)
    (hlive : ncExpired now it.t = false)
    (hfT : it.entry.isTransformed = false)
    (hdk : lookupA st.cache.disk it.entry.path = some buf)
    (hfl : transformWriteFails ctx.transformFn buf o st.cache.maxSize = true) :
    cdnHandler ctx now st key query =
      (CDNResponse.serverError,
       ⟨(cmGet now st.cache (generateTransformKey key o)).2, st.redis⟩, 1) := by
  have hcm := cmGet_some_shape now st.cache (generateTransformKey key o) it hlook hlive
  have hcg : (cmGet now st.cache (generateTransformKey key o)).1
      = some { it.entry with accessCount :=
          (lookupA st.cache.accessLog (generateTransformKey key o)).getD 0 + 1 } := by
    rw [hcm]
  exact cdnHandler_hitfail ctx now st key query o _ buf h1 h2 hce hcg hfT hdk hfl

/-- The same serve-a-flagged-item fact over the stored NodeCache item. -/
theorem cdnHandler_flagged_hit (ctx : CDNCtx) (now : Nat) (st : ServerState)
    (key : String) (query : TQuery) (o : ImageTransformOptions)
    (it : NCItem) (body : Bytes)
    (h1 : parseTransformOptions ctx.itConfig query = some o)
    (h2 : isImageFile key = true)
    (hce : (if ctx.redisEnabled then lookupA st.redis (generateTransformKey key o)
      else none) = none)
    (hlook : lookupA st.cache.items (generateTransformKey key o) = some it)
    (hlive : ncExpired now it.t = false)
    (hfT : it.entry.isTransformed = true)
    (hdk : lookupA st.cache.disk it.entry.path = some body) :
    (cdnHandler ctx now st key query).1
      = CDNResponse.served "TRANSFORMED_HIT" it.entry.contentType body it.entry.etag ∧
    (cdnHandler ctx now st key query).2.2 = 0 := by
  have hcm := cmGet_some_shape now st.cache (generateTransformKey key o) it hlook hlive
  have hcg : (cmGet now st.cache (generateTransformKey key o)).1
      = some { it.entry with accessCount :=
          (lookupA st.cache.accessLog (generateTransformKey key o)).getD 0 + 1 } := by
    rw [hcm]
  have hdk2 : lookupA (cmGet now st.cache (generateTransformKey key o)).2.disk
      ({ it.entry with accessCount :=
          (lookupA st.cache.accessLog (generateTransformKey key o)).getD 0 + 1 }).path
      = some body := by
    rw [hcm]
    exact hdk
  have hl := cdnHandler_local_hit ctx now st key query o _ body h1 h2 hce hcg hfT hdk2
  constructor
  · rw [hl]
  · rw [hl]

/-- C5 (amended): provided the first resolution completes — it answers
X-Cache TRANSFORMED, i.e. the transform succeeded and the write-back of its
output succeeded — resolving the same base image key with the same
non-empty option set twice runs the Transform Engine exactly once in the
first resolution and zero times in the second: the first materializes the
output in the Content Store under the derived key with isTransformed = true
and originalKey = the base key (the served ETag is the output digest),
mirrors it to the remote tier when that tier is active, and the second
serves the materialized derived entry directly (X-Cache TRANSFORMED_HIT)
with the same bytes, content type and ETag.  When instead the derived key
is found cached but unflagged and the transform or its write-back fails,
the failure escapes as a 500 server error: the engine ran once, nothing was
materialized (the store keeps only the read's own bookkeeping), and an
identical second request runs the engine once again. -/
theorem c5_retransform_avoidance_amended
    (ctx : CDNCtx) (now : Nat) (st : ServerState) (key : String) (query : TQuery)
    (o : ImageTransformOptions) (ct : String) (bd : Bytes) (tg : String)
    (h1 : parseTransformOptions ctx.itConfig query = some o)
    (h2 : isImageFile key = true) :
    ((cdnHandler ctx now st key query).1 = CDNResponse.served "TRANSFORMED" ct bd tg →
      (cdnHandler ctx now st key query).2.2 = 1 ∧
      tg = etagOf bd ∧
      ((lookupA (cdnHandler ctx now st key query).2.1.cache.items
          (generateTransformKey key o)).map
        (fun it => (it.entry.isTransformed, it.entry.originalKey,
          it.entry.contentType, it.entry.path))) =
        some (true, some key, ct, generateTransformKey key o) ∧
      lookupA (cdnHandler ctx now st key query).2.1.cache.disk
        (generateTransformKey key o) = some bd ∧
      (ctx.redisEnabled = true →
        ((lookupA (cdnHandler ctx now st key query).2.1.redis
            (generateTransformKey key o)).map
          (fun e2 => (e2.isTransformed, e2.originalKey))) = some (true, some key)) ∧
      (cdnHandler ctx now (cdnHandler ctx now st key query).2.1 key query).1 =
        CDNResponse.served "TRANSFORMED_HIT" ct bd tg ∧
      (cdnHandler ctx now (cdnHandler ctx now st key query).2.1 key query).2.2 = 0) ∧
    (∀ cached buf,
      (if ctx.redisEnabled then lookupA st.redis (generateTransformKey key o)
        else none) = none →
      (cmGet now st.cache (generateTransformKey key o)).1 = some cached →
      cached.isTransformed = false →
      lookupA st.cache.disk cached.path = some buf →
      transformWriteFails ctx.transformFn buf o st.cache.maxSize = true →
      (cdnHandler ctx now st key query).1 = CDNResponse.serverError ∧
      (cdnHandler ctx now st key query).2.2 = 1 ∧
      (cdnHandler ctx now st key query).2.1 =
        ⟨(cmGet now st.cache (generateTransformKey key o)).2, st.redis⟩ ∧
      (cdnHandler ctx now (cdnHandler ctx now st key query).2.1 key query).1 =
        CDNResponse.serverError ∧
      (cdnHandler ctx now (cdnHandler ctx now st key query).2.1 key query).2.2 = 1) := by
  constructor
  · intro h3
    obtain ⟨s1, e, s2, hS, htg, hrun⟩ :=
      cdnHandler_transformed_inv ctx now st key query o ct bd tg h1 h2 h3
    obtain ⟨s3, hes, hover, he, hs2⟩ :=
      cmSet_ok_shape now s1 (generateTransformKey key o) bd ct [] e s2 hS
    have hepath : e.path = generateTransformKey key o := by rw [he]
    have hect : e.contentType = ct := by rw [he]
    have heet : e.etag = etagOf bd := by rw [he]
    have hs2items : s2.items
        = setA s3.items (generateTransformKey key o) ⟨e, ncT now s1.ttl⟩ := by
      rw [hs2]
      rfl
    have hs2disk : s2.disk = setA s3.disk (generateTransformKey key o) bd := by
      rw [hs2]
    have hlook3 : lookupA (installTransformed key (generateTransformKey key o) e s2 st
        ctx.redisEnabled).cache.items (generateTransformKey key o)
        = some ⟨flagEntry key e, ncT now s1.ttl⟩ := by
      dsimp only [installTransformed]
      rw [lookupA_mutateEntry, hs2items, lookupA_setA_self]
      rfl
    have hdisk3 : lookupA (installTransformed key (generateTransformKey key o) e s2 st
        ctx.redisEnabled).cache.disk (generateTransformKey key o) = some bd := by
      dsimp only [installTransformed]
      rw [hs2disk]
      exact lookupA_setA_self _ _ _
    have hsec : (cdnHandler ctx now (installTransformed key (generateTransformKey key o)
          e s2 st ctx.redisEnabled) key query).1
          = CDNResponse.served "TRANSFORMED_HIT" ct bd tg ∧
        (cdnHandler ctx now (installTransformed key (generateTransformKey key o)
          e s2 st ctx.redisEnabled) key query).2.2 = 0 := by
      cases hRe : ctx.redisEnabled with
      | true =>
          have hrl : lookupA (installTransformed key (generateTransformKey key o) e s2 st
              ctx.redisEnabled).redis (generateTransformKey key o)
              = some (flagEntry key e) := by
            dsimp only [installTransformed]
            rw [hRe]
            simp only [eq_self_iff_true, if_true]
            exact lookupA_setA_self _ _ _
          have hdk : lookupA (installTransformed key (generateTransformKey key o) e s2 st
              ctx.redisEnabled).cache.disk (flagEntry key e).path = some bd := by
            have hfp : (flagEntry key e).path = generateTransformKey key o := hepath
            rw [hfp]
            exact hdisk3
          have hr2 := cdnHandler_redis_hit ctx now (installTransformed key
              (generateTransformKey key o) e s2 st ctx.redisEnabled) key query o
              (flagEntry key e) bd h1 h2 hRe hrl rfl hdk
          rw [hRe] at hr2
          constructor
          · rw [hr2]
            have hc1 : (flagEntry key e).contentType = ct := hect
            have hc2 : (flagEntry key e).etag = tg := htg.symm
            rw [hc1, hc2]
          · rw [hr2]
      | false =>
          have hce2 : (if ctx.redisEnabled then lookupA (installTransformed key
              (generateTransformKey key o) e s2 st ctx.redisEnabled).redis
              (generateTransformKey key o) else none) = none := by
            rw [hRe]
            rfl
          have hdk : lookupA (installTransformed key (generateTransformKey key o) e s2 st
              ctx.redisEnabled).cache.disk
              ((⟨flagEntry key e, ncT now s1.ttl⟩ : NCItem).entry.path) = some bd := by
            have hfp : (⟨flagEntry key e, ncT now s1.ttl⟩ : NCItem).entry.path
                = generateTransformKey key o := hepath
            rw [hfp]
            exact hdisk3
          have hl2 := cdnHandler_flagged_hit ctx now (installTransformed key
              (generateTransformKey key o) e s2 st ctx.redisEnabled) key query o
              ⟨flagEntry key e, ncT now s1.ttl⟩ bd h1 h2 hce2 hlook3
              (ncT_live now s1.ttl) rfl hdk
          rw [hRe] at hl2
          constructor
          · rw [hl2.1]
            have hc1 : (⟨flagEntry key e, ncT now s1.ttl⟩ : NCItem).entry.contentType
                = ct := hect
            have hc2 : (⟨flagEntry key e, ncT now s1.ttl⟩ : NCItem).entry.etag
                = tg := htg.symm
            rw [hc1, hc2]
          · exact hl2.2
    refine ⟨?_, ?_, ?_, ?_, ?_, ?_, ?_⟩
    · rw [hrun]
    · rw [htg, heet]
    · rw [hrun]
      dsimp only
      rw [hlook3]
      simp only [flagEntry]
      rw [hect, hepath]
      rfl
    · rw [hrun]
      dsimp only
      exact hdisk3
    · intro hre
      rw [hrun]
      dsimp only [installTransformed]
      simp only [hre, eq_self_iff_true, if_true, lookupA_setA_self, flagEntry]
      rfl
    · rw [hrun]
      dsimp only
      exact hsec.1
    · rw [hrun]
      dsimp only
      exact hsec.2
  · intro cached buf hce hcg hcf hcb hfl
    obtain ⟨it, hit, hlive, hcEq, hPair⟩ :=
      cmGet_fst_some now st.cache (generateTransformKey key o) cached hcg
    have hfT : it.entry.isTransformed = false := by
      have : cached.isTransformed = it.entry.isTransformed := by rw [hcEq]
      rw [← this]
      exact hcf
    have hdk : lookupA st.cache.disk it.entry.path = some buf := by
      have : cached.path = it.entry.path := by rw [hcEq]
      rw [← this]
      exact hcb
    have hrun1 := cdnHandler_unflagged_fail ctx now st key query o it buf h1 h2 hce hit
      hlive hfT hdk hfl
    have hlookT : lookupA (cmGet now st.cache (generateTransformKey key o)).2.items
        (generateTransformKey key o) = some ⟨cached, ncT now st.cache.ttl⟩ := by
      rw [hPair]
      dsimp only
      simp only [ncSet]
      exact lookupA_setA_self _ _ _
    have hfTT : (⟨cached, ncT now st.cache.ttl⟩ : NCItem).entry.isTransformed
        = false := hcf
    have hdkT : lookupA (cmGet now st.cache (generateTransformKey key o)).2.disk
        (⟨cached, ncT now st.cache.ttl⟩ : NCItem).entry.path = some buf := by
      rw [hPair]
      dsimp only
      exact hcb
    have hflT : transformWriteFails ctx.transformFn buf o
        (cmGet now st.cache (generateTransformKey key o)).2.maxSize = true := by
      rw [hPair]
      dsimp only
      exact hfl
    have hrun2 := cdnHandler_unflagged_fail ctx now
      ⟨(cmGet now st.cache (generateTransformKey key o)).2, st.redis⟩ key query o
      ⟨cached, ncT now st.cache.ttl⟩ buf h1 h2 hce hlookT (ncT_live now st.cache.ttl)
      hfTT hdkT hflT
    refine ⟨?_, ?_, ?_, ?_, ?_⟩
    · rw [hrun1]
    · rw [hrun1]
    · rw [hrun1]
    · rw [hrun1]
      dsimp only
      rw [hrun2]
    · rw [hrun1]
      dsimp only
      rw [hrun2]

/-- A 3-byte unflagged entry sitting in the store under the derived key
img.png_w100, with its bytes on disk: the cache-hit transform scenario. -/
def c5hitEntry : CacheEntry :=
  { key := "img.png_w100", path := "img.png_w100", size := 3,
    contentType := "image/png", etag := etagOf [1, 2, 3], lastModified := 0,
    expiresAt := 60000, accessCount := 0, compressed := false, encodings := [] }

/-- Store state holding the unflagged derived-key entry (live stamp, bytes
on disk, log row), no remote tier. -/
def c5hitSt : ServerState :=
  ⟨⟨[("img.png_w100", ⟨c5hitEntry, 60000⟩)], [("img.png_w100", 0)], 3,
    [("img.png_w100", [1, 2, 3])], 100, 60⟩, []⟩

/-- What the read of the unflagged entry returns (count bumped to 1). -/
def c5hitRead : CacheEntry := { c5hitEntry with accessCount := 1 }

/-- Witness for c5_retransform_avoidance_amended at two concrete inputs:
a successful origin-pull transform with the remote tier active (mirrored
flagged entry, one engine run then zero), and a cache-hit write-back
failure (500 with one engine run per identical request). -/
theorem c5_retransform_witness :
    ((lookupA (cdnHandler (c5ctx true) 0 c5st0 "img.png" c5q).2.1.redis
        (generateTransformKey "img.png" { width := some 100 })).map
      (fun e2 => (e2.isTransformed, e2.originalKey))) = some (true, some "img.png") ∧
    (cdnHandler (c5ctx true) 0
        (cdnHandler (c5ctx true) 0 c5st0 "img.png" c5q).2.1 "img.png" c5q).2.2 = 0 ∧
    (cdnHandler (c5ctx true) 0 c5st0 "img.png" c5q).2.2 = 1 ∧
    (cdnHandler c5badCtx 0 c5hitSt "img.png" c5q).1 = CDNResponse.serverError ∧
    (cdnHandler c5badCtx 0
        (cdnHandler c5badCtx 0 c5hitSt "img.png" c5q).2.1 "img.png" c5q).2.2 = 1 := by
  have hA := (c5_retransform_avoidance_amended (c5ctx true) 0 c5st0 "img.png" c5q
      { width := some 100 } "image/webp" [9, 9, 9, 9] (etagOf [9, 9, 9, 9])
      (by decide) (by decide)).1 (by decide)
  have hB := (c5_retransform_avoidance_amended c5badCtx 0 c5hitSt "img.png" c5q
      { width := some 100 } "" [] "" (by decide) (by decide)).2 c5hitRead [1, 2, 3]
      (by decide) (by decide) (by decide) (by decide) (by decide)
  exact ⟨hA.2.2.2.2.1 rfl, hA.2.2.2.2.2.2, hA.1, hB.1, hB.2.2.2.2⟩

/-- Counterexample to C5 as stated: when the transform output cannot be
written back (oversized for the cache), the first resolution runs the
engine, fails to materialize the derived entry, and reports NOT_FOUND;
the second identical resolution runs the engine again — two Transform
Engine runs for two successive resolutions of the same key and options,
refuting "at most once" as an unconditional property. -/
theorem c5_retransform_counterexample :
    (cdnHandler c5badCtx 0 ⟨emptyCache 100 60, []⟩ "img.png" c5q).2.2 = 1 ∧
    (cdnHandler c5badCtx 0 ⟨emptyCache 100 60, []⟩ "img.png" c5q).1 = .notFound ∧
    (cdnHandler c5badCtx 0
        (cdnHandler c5badCtx 0 ⟨emptyCache 100 60, []⟩ "img.png" c5q).2.1
        "img.png" c5q).2.2 = 1 := by
  refine ⟨?_, ?_, ?_⟩ <;> decide
